import Mathlib

set_option maxRecDepth 8000

/-!
Shallow embedding of `src/packet.py`: a decoder / mutator / re-serializer for
Ethernet frames carrying IPv4/TCP segments, together with the RFC-1071-style
Internet checksum routine used by it.

Byte buffers are modelled as `List Nat` (each element is one octet; theorems
carry `b < 256` hypotheses where the source relies on byte-sized values).
Python's arbitrary-precision integers are modelled as `Nat`; the one use of a
negative intermediate value (`~s` in `checksum`) is handled by an explicit
low-bit flip, justified in a comment at the definition.

Python's default arguments (`n_bits=8`, `n_octets=1`) are passed explicitly,
since the embedding does not use default binders.
-/

/-- `to_bits(octet, offset, length, n_bits=8)` from packet.py lines 4-6:
`mask = (1 << length) - 1; return (octet >> (n_bits - offset - length)) & mask`. -/
def to_bits (octet offset length n_bits : Nat) : Nat :=
  (octet >>> (n_bits - offset - length)) &&& ((1 <<< length) - 1)

/-- `to_octets(i, n_octets=1)` from packet.py lines 9-13: the loop
`for x in range(n_octets): l.append(to_bits(i, 8*x, 8, 8*n_octets))`. -/
def to_octets (i n_octets : Nat) : List Nat :=
  (List.range n_octets).map (fun x => to_bits i (8 * x) 8 (8 * n_octets))

/-- `to_integer(octets, n_bits=8)` from packet.py lines 16-22: big-endian
accumulation `i += o << (l * n_bits)` with `l` counting down from
`len(octets) - 1`; written as structural recursion on the list (the head
octet carries weight `(len - 1) * n_bits`, exactly the loop's first step). -/
def to_integer : List Nat → Nat → Nat
  | [], _ => 0
  | o :: rest, n_bits => (o <<< (rest.length * n_bits)) + to_integer rest n_bits

/-- `to_integer_le(octets, n_bits=8)` from packet.py lines 25-31: little-endian
accumulation `i += o << (l * n_bits)` with `l` counting up from 0. -/
def to_integer_le : List Nat → Nat → Nat
  | [], _ => 0
  | o :: rest, n_bits => o + (to_integer_le rest n_bits) <<< n_bits

/-- `checksum(octets)` from packet.py lines 34-42.

The Python code's `s = ~s` produces a negative two's-complement integer; the
following line `(((s >> 8) & 0xff) | s << 8) & 0xffff` reads only bits 0-15 of
that value (`(s >> 8) & 0xff` reads bits 8-15, and `s << 8` contributes bits
0-7 of `s` to the surviving 16-bit window). On those bits, Python's `~s` (for
the non-negative `s` produced by the folds) coincides with flipping the low 16
bits, i.e. with `0xffff - (s &&& 0xffff)`, which is how it is written here. -/
def checksum (octets : List Nat) : Nat :=
  let padded := if octets.length % 2 = 1 then octets ++ [0] else octets
  let s := ((List.range' 0 (padded.length / 2) 2).map
    (fun i => to_integer_le ((padded.drop i).take 2) 8)).sum
  let s := (s >>> 16) + (s &&& 0xffff)
  let s := s + (s >>> 16)
  let s := 0xffff - (s &&& 0xffff)
  (((s >>> 8) &&& 0xff) ||| (s <<< 8)) &&& 0xffff

/-- Synonym for `checksum`, used inside the packet namespaces below, where
the structure field named `checksum` shadows the top-level function. -/
abbrev inet_checksum (octets : List Nat) : Nat :=
  checksum octets

/-- `MACAddress` (packet.py lines 45-54): stores the input octets as an
immutable tuple. The constructor performs no validation of any kind. -/
structure MACAddress where
  address : List Nat
deriving Repr, DecidableEq

/-- `MACAddress.__init__`: `self.address = tuple(int(o) for o in octets)`
(the `int` conversion is the identity on octet values). -/
def MACAddress.ofOctets (octets : List Nat) : MACAddress :=
  ⟨octets⟩

/-- `IPv4Address` (packet.py lines 79-87): same shape as `MACAddress`. -/
structure IPv4Address where
  address : List Nat
deriving Repr, DecidableEq

/-- `IPv4Address.__init__`. -/
def IPv4Address.ofOctets (octets : List Nat) : IPv4Address :=
  ⟨octets⟩

/-- The decoded fields of `TCPPacket` (packet.py lines 158-191). The nine
control flags are `bool(...)` in Python and are `Bool` here; `options` is the
big-endian integer the source stores; `payload` keeps the raw trailing bytes.
The Python object's `parent` back-reference is not a field: operations that
read it (`replace_checksum`) take the parent packet as an argument. -/
structure TCPPacket where
  source_port : Nat
  dest_port : Nat
  sequence : Nat
  ack_number : Nat
  data_offset : Nat
  reserved : Nat
  NS : Bool
  CWR : Bool
  ECE : Bool
  URG : Bool
  ACK : Bool
  PSH : Bool
  RST : Bool
  SYN : Bool
  FIN : Bool
  window_size : Nat
  checksum : Nat
  urgent_pointer : Nat
  options : Nat
  payload : List Nat
deriving Repr, DecidableEq

/-- The decoded fields of `IPv4Packet` (packet.py lines 90-124). -/
structure IPv4Packet where
  version : Nat
  ihl : Nat
  dscp : Nat
  ecn : Nat
  length : Nat
  identification : Nat
  flags : Nat
  fragment_offset : Nat
  ttl : Nat
  protocol : Nat
  checksum : Nat
  source_address : IPv4Address
  dest_address : IPv4Address
  options : Nat
  payload : TCPPacket
deriving Repr, DecidableEq

/-- The decoded fields of `EthernetFrame` (packet.py lines 57-68). -/
structure EthernetFrame where
  dest_address : MACAddress
  source_address : MACAddress
  ethertype : Nat
  payload : IPv4Packet
deriving Repr, DecidableEq

/-- `TCPPacket.raw_header` (packet.py lines 193-216). `int(flag)` is
`Bool.toNat`; the flags byte is `to_integer([...], 1)` over the eight
flag bits CWR..FIN, exactly as in the source. -/
def TCPPacket.raw_header (t : TCPPacket) : List Nat :=
  to_octets t.source_port 2 ++
  to_octets t.dest_port 2 ++
  to_octets t.sequence 4 ++
  to_octets t.ack_number 4 ++
  to_octets ((t.data_offset <<< 4) + (t.reserved <<< 1) + t.NS.toNat) 1 ++
  to_octets (to_integer
    [t.CWR.toNat, t.ECE.toNat, t.URG.toNat, t.ACK.toNat,
     t.PSH.toNat, t.RST.toNat, t.SYN.toNat, t.FIN.toNat] 1) 1 ++
  to_octets t.window_size 2 ++
  to_octets t.checksum 2 ++
  to_octets t.urgent_pointer 2 ++
  to_octets t.options ((t.data_offset - 5) * 4)

/-- `TCPPacket.raw` (packet.py lines 218-219). -/
def TCPPacket.raw (t : TCPPacket) : List Nat :=
  t.raw_header ++ t.payload

/-- `IPv4Packet.raw_header` (packet.py lines 126-139). -/
def IPv4Packet.raw_header (p : IPv4Packet) : List Nat :=
  to_octets (to_integer [p.version, p.ihl] 4) 1 ++
  to_octets ((p.dscp <<< 2) + p.ecn) 1 ++
  to_octets p.length 2 ++
  to_octets p.identification 2 ++
  to_octets ((p.flags <<< 13) + p.fragment_offset) 2 ++
  to_octets p.ttl 1 ++
  to_octets p.protocol 1 ++
  to_octets p.checksum 2 ++
  p.source_address.address ++
  p.dest_address.address ++
  to_octets p.options ((p.ihl - 5) * 4)

/-- `IPv4Packet.raw` (packet.py lines 141-142). -/
def IPv4Packet.raw (p : IPv4Packet) : List Nat :=
  p.raw_header ++ p.payload.raw

/-- `IPv4Packet.replace_checksum` (packet.py lines 144-146): the field is set
to 0 first, and the new checksum is computed over the header serialized with
that zeroed field. -/
def IPv4Packet.replace_checksum (p : IPv4Packet) : IPv4Packet :=
  let p0 := { p with checksum := 0 }
  { p0 with checksum := inet_checksum p0.raw_header }

/-- `IPv4Packet.tcp_checksum_bytes` (packet.py lines 148-155): the TCP
pseudo-header - source address, destination address, one zero byte, the
protocol byte, and the 16-bit length of the currently serialized TCP
segment `len(self.payload.raw())`. -/
def IPv4Packet.tcp_checksum_bytes (p : IPv4Packet) : List Nat :=
  p.source_address.address ++
  p.dest_address.address ++
  to_octets 0 1 ++
  to_octets p.protocol 1 ++
  to_octets p.payload.raw.length 2

/-- `TCPPacket.replace_checksum` (packet.py lines 221-226). In Python,
`self.parent.payload` *is* this very packet object, so the moment
`self.checksum = 0` executes, the parent's view of its payload has the zeroed
checksum too; `parent0` makes that aliasing explicit in the pure model. -/
def TCPPacket.replace_checksum (t : TCPPacket) (parent : IPv4Packet) : TCPPacket :=
  let t0 := { t with checksum := 0 }
  let parent0 := { parent with payload := t0 }
  { t0 with checksum := inet_checksum (parent0.tcp_checksum_bytes ++ t0.raw_header) }

/-- `TCPPacket.forge_reset` (packet.py lines 228-246), modelled at the level
of the enclosing `IPv4Packet` so that the mutation of the TCP payload and the
two checksum recomputations (`self.parent.replace_checksum()` first, then
`self.replace_checksum()`) see the same object graph as the Python code. -/
def IPv4Packet.forge_reset (p : IPv4Packet) (sequence : Nat) : IPv4Packet :=
  let t1 := { p.payload with
    NS := false, CWR := false, ECE := false, URG := false, ACK := false,
    PSH := false, RST := true, SYN := false, FIN := false,
    sequence := sequence, ack_number := 0, window_size := 0,
    urgent_pointer := 0, payload := ([] : List Nat) }
  let p1 := { p with payload := t1 }
  let p2 := p1.replace_checksum
  { p2 with payload := t1.replace_checksum p2 }

/-- `EthernetFrame.raw` (packet.py lines 70-76). -/
def EthernetFrame.raw (f : EthernetFrame) : List Nat :=
  f.dest_address.address ++
  f.source_address.address ++
  to_octets f.ethertype 2 ++
  f.payload.raw

/-- The three rejection sites of the decoder plus out-of-range indexing.
The Python source raises `ValueError("non-ipv4 packet")` at the ethertype
check and at the IP-version check, `ValueError("non-tcp packet")` at the
protocol check, and `IndexError` on a direct out-of-range `octets[i]`;
the constructors are named after the spec's labels for the three checks. -/
inductive ParseError where
  | unsupportedEthertype
  | unsupportedIPVersion
  | unsupportedTransportProtocol
  | indexError
deriving Repr, DecidableEq

/-- `TCPPacket.__init__` (packet.py lines 159-191). All field reads are
lenient slices except `octets[12]` and `octets[13]`; since no protocol check
sits between those two reads, the two possible `IndexError`s collapse into
the single length guard `14 ≤ octets.length`.

Python computes the options slice `octets[20 : 20 + 4*(data_offset - 5)]` and
the payload start `20 + 4*(data_offset - 5)` with signed arithmetic; since
`20 + 4*(d - 5) = 4*d` over ℤ, the payload is `octets.drop (4*d)` and the
options slice is `(octets.drop 20).take (4*d - 20)` - for `d < 5` Python's
slice `octets[20 : 4*d]` is empty exactly as the truncating `Nat`
subtraction makes it here. -/
def decodeTCP (octets : List Nat) : Except ParseError TCPPacket :=
  if 14 ≤ octets.length then
    let b12 := octets.getD 12 0
    let b13 := octets.getD 13 0
    let data_offset := to_bits b12 0 4 8
    Except.ok {
      source_port := to_integer (octets.take 2) 8
      dest_port := to_integer ((octets.drop 2).take 2) 8
      sequence := to_integer ((octets.drop 4).take 4) 8
      ack_number := to_integer ((octets.drop 8).take 4) 8
      data_offset := data_offset
      reserved := to_bits b12 4 3 8
      NS := to_bits b12 7 1 8 ≠ 0
      CWR := to_bits b13 0 1 8 ≠ 0
      ECE := to_bits b13 1 1 8 ≠ 0
      URG := to_bits b13 2 1 8 ≠ 0
      ACK := to_bits b13 3 1 8 ≠ 0
      PSH := to_bits b13 4 1 8 ≠ 0
      RST := to_bits b13 5 1 8 ≠ 0
      SYN := to_bits b13 6 1 8 ≠ 0
      FIN := to_bits b13 7 1 8 ≠ 0
      window_size := to_integer ((octets.drop 14).take 2) 8
      checksum := to_integer ((octets.drop 16).take 2) 8
      urgent_pointer := to_integer ((octets.drop 18).take 2) 8
      options := to_integer ((octets.drop 20).take (4 * data_offset - 20)) 8
      payload := octets.drop (4 * data_offset)
    }
  else Except.error ParseError.indexError

/-- `IPv4Packet.__init__` (packet.py lines 91-124), with the same slice
conventions as `decodeTCP` (`20 + 4*(ihl - 5) = 4*ihl` over ℤ). The error
order follows the source: `octets[0]` is read first, then the version check
fires, then the remaining direct reads `octets[1]`, `octets[8]`, `octets[9]`
(collapsed into one length guard, all raising `IndexError`), then the
protocol check. -/
def decodeIPv4 (octets : List Nat) : Except ParseError IPv4Packet :=
  if 1 ≤ octets.length then
    let b0 := octets.getD 0 0
    if to_bits b0 0 4 8 ≠ 4 then Except.error ParseError.unsupportedIPVersion
    else if 10 ≤ octets.length then
      if octets.getD 9 0 ≠ 6 then Except.error ParseError.unsupportedTransportProtocol
      else
        let ihl := to_bits b0 4 4 8
        let b1 := octets.getD 1 0
        let flags_and_fragment := to_integer ((octets.drop 6).take 2) 8
        match decodeTCP (octets.drop (4 * ihl)) with
        | Except.ok t => Except.ok {
            version := to_bits b0 0 4 8
            ihl := ihl
            dscp := to_bits b1 0 6 8
            ecn := to_bits b1 6 2 8
            length := to_integer ((octets.drop 2).take 2) 8
            identification := to_integer ((octets.drop 4).take 2) 8
            flags := to_bits flags_and_fragment 0 3 16
            fragment_offset := to_bits flags_and_fragment 3 13 16
            ttl := octets.getD 8 0
            protocol := octets.getD 9 0
            checksum := to_integer ((octets.drop 10).take 2) 8
            source_address := IPv4Address.ofOctets ((octets.drop 12).take 4)
            dest_address := IPv4Address.ofOctets ((octets.drop 16).take 4)
            options := to_integer ((octets.drop 20).take (4 * ihl - 20)) 8
            payload := t
          }
        | Except.error e => Except.error e
    else Except.error ParseError.indexError
  else Except.error ParseError.indexError

/-- `EthernetFrame.__init__` (packet.py lines 58-68). The MAC slices are
lenient; the first possible failures are the direct reads `octets[12]` and
`octets[13]` (one length guard), then the ethertype check, then the IPv4
payload parse on `octets[14:]`. -/
def decodeEthernet (octets : List Nat) : Except ParseError EthernetFrame :=
  if 14 ≤ octets.length then
    let ethertype := (octets.getD 12 0 <<< 8) + octets.getD 13 0
    if ethertype ≠ 0x0800 then Except.error ParseError.unsupportedEthertype
    else
      match decodeIPv4 (octets.drop 14) with
      | Except.ok p => Except.ok {
          dest_address := MACAddress.ofOctets (octets.take 6)
          source_address := MACAddress.ofOctets ((octets.drop 6).take 6)
          ethertype := ethertype
          payload := p
        }
      | Except.error e => Except.error e
  else Except.error ParseError.indexError

/-!
Basic lemmas about the bit/integer codec.
-/

theorem to_bits_eq (o off len w : Nat) :
    to_bits o off len w = o / 2 ^ (w - off - len) % 2 ^ len := by
  unfold to_bits
  have h1 : (1 <<< len) - 1 = 2 ^ len - 1 := by
    rw [Nat.shiftLeft_eq, one_mul]
  rw [h1, Nat.and_pow_two_sub_one_eq_mod, Nat.shiftRight_eq_div_pow]

theorem to_bits_lt (o off len w : Nat) : to_bits o off len w < 2 ^ len := by
  rw [to_bits_eq]
  exact Nat.mod_lt _ (Nat.pos_pow_of_pos _ (by omega))

theorem length_to_octets (i n : Nat) : (to_octets i n).length = n := by
  simp [to_octets]

theorem to_octets_zero (i : Nat) : to_octets i 0 = [] := by
  simp [to_octets]

theorem to_octets_succ (i n : Nat) :
    to_octets i (n + 1) = ((i >>> (8 * n)) &&& 255) :: to_octets i n := by
  unfold to_octets
  rw [List.range_succ_eq_map, List.map_cons, List.map_map]
  have h0 : to_bits i (8 * 0) 8 (8 * (n + 1)) = (i >>> (8 * n)) &&& 255 := by
    unfold to_bits
    have e1 : 8 * (n + 1) - 8 * 0 - 8 = 8 * n := by omega
    have e2 : (1 <<< 8) - 1 = 255 := by decide
    rw [e1, e2]
  rw [h0]
  congr 1
  apply List.map_congr_left
  intro x _
  simp only [Function.comp]
  unfold to_bits
  have e3 : 8 * (n + 1) - 8 * (Nat.succ x) - 8 = 8 * n - 8 * x - 8 := by omega
  rw [e3]

theorem mem_to_octets_lt (i n : Nat) : ∀ b ∈ to_octets i n, b < 256 := by
  intro b hb
  unfold to_octets at hb
  simp only [List.mem_map] at hb
  obtain ⟨x, _, hx⟩ := hb
  rw [← hx, to_bits_eq]
  exact Nat.mod_lt _ (by norm_num)

theorem and_255_eq_mod (x : Nat) : x &&& 255 = x % 256 := by
  rw [show (255 : Nat) = 2 ^ 8 - 1 by norm_num, Nat.and_pow_two_sub_one_eq_mod]

theorem and_65535_eq_mod (x : Nat) : x &&& 65535 = x % 65536 := by
  rw [show (65535 : Nat) = 2 ^ 16 - 1 by norm_num, Nat.and_pow_two_sub_one_eq_mod]

theorem to_octets_one (x : Nat) : to_octets x 1 = [x % 256] := by
  have h := to_octets_succ x 0
  rw [to_octets_zero] at h
  rw [h, and_255_eq_mod]
  simp

theorem to_octets_two (x : Nat) : to_octets x 2 = [x / 256 % 256, x % 256] := by
  have h := to_octets_succ x 1
  rw [to_octets_one, and_255_eq_mod, Nat.shiftRight_eq_div_pow] at h
  norm_num at h
  exact h

theorem to_integer_lt (l : List Nat) (hb : ∀ b ∈ l, b < 256) :
    to_integer l 8 < 2 ^ (8 * l.length) := by
  induction l with
  | nil => simp [to_integer]
  | cons o rest ih =>
    have ho : o < 256 := hb o (by simp)
    have hr : to_integer rest 8 < 2 ^ (8 * rest.length) := ih (fun b h => hb b (by simp [h]))
    simp only [to_integer, List.length_cons, Nat.shiftLeft_eq]
    have e : rest.length * 8 = 8 * rest.length := by ring
    rw [e]
    have hpow : 2 ^ (8 * (rest.length + 1)) = 256 * 2 ^ (8 * rest.length) := by
      rw [show 8 * (rest.length + 1) = 8 * rest.length + 8 by omega, pow_add]
      ring
    rw [hpow]
    calc o * 2 ^ (8 * rest.length) + to_integer rest 8
        < (o + 1) * 2 ^ (8 * rest.length) := by
          have := Nat.one_le_two_pow (n := 8 * rest.length)
          nlinarith
      _ ≤ 256 * 2 ^ (8 * rest.length) := by
          exact Nat.mul_le_mul_right _ (by omega)

theorem to_octets_mod (n : Nat) : ∀ i, to_octets i n = to_octets (i % 2 ^ (8 * n)) n := by
  induction n with
  | zero => intro i; rw [to_octets_zero, to_octets_zero]
  | succ n ih =>
    intro i
    rw [to_octets_succ, to_octets_succ]
    have hpow : 2 ^ (8 * (n + 1)) = 2 ^ (8 * n) * 256 := by
      rw [show 8 * (n + 1) = 8 * n + 8 by omega, pow_add]
      ring
    have hhead : (i % 2 ^ (8 * (n + 1))) >>> (8 * n) &&& 255 = i >>> (8 * n) &&& 255 := by
      rw [and_255_eq_mod, and_255_eq_mod, Nat.shiftRight_eq_div_pow, Nat.shiftRight_eq_div_pow,
        hpow, Nat.mod_mul_right_div_self]
      simp
    have htail : to_octets (i % 2 ^ (8 * (n + 1))) n = to_octets i n := by
      rw [ih (i % 2 ^ (8 * (n + 1))), Nat.mod_mod_of_dvd, ← ih i]
      rw [hpow]
      exact Dvd.intro 256 rfl
    rw [hhead, htail]

theorem to_octets_to_integer (l : List Nat) (hb : ∀ b ∈ l, b < 256) :
    to_octets (to_integer l 8) l.length = l := by
  induction l with
  | nil => exact to_octets_zero _
  | cons o rest ih =>
    have ho : o < 256 := hb o (by simp)
    have hbr : ∀ b ∈ rest, b < 256 := fun b h => hb b (by simp [h])
    have hr : to_integer rest 8 < 2 ^ (8 * rest.length) := to_integer_lt rest hbr
    have hint : to_integer (o :: rest) 8 = 2 ^ (8 * rest.length) * o + to_integer rest 8 := by
      simp only [to_integer, Nat.shiftLeft_eq]
      ring_nf
    simp only [List.length_cons]
    rw [to_octets_succ]
    have hhead : (to_integer (o :: rest) 8) >>> (8 * rest.length) &&& 255 = o := by
      rw [hint, and_255_eq_mod, Nat.shiftRight_eq_div_pow,
        Nat.mul_add_div (Nat.pos_pow_of_pos _ (by omega)), Nat.div_eq_of_lt hr]
      rw [Nat.add_zero]
      exact Nat.mod_eq_of_lt ho
    have htail : to_octets (to_integer (o :: rest) 8) rest.length = rest := by
      rw [to_octets_mod, hint, Nat.mul_add_mod, Nat.mod_eq_of_lt hr]
      exact ih hbr
    rw [hhead, htail]

/-!
A closed characterization of `checksum` in division/modulus normal form,
used to prove the algebraic claims about it.
-/

/-- Proof-side normal form: the sum of the 16-bit little-endian words of a
byte list, two bytes at a time. -/
def words_le : List Nat → Nat
  | [] => 0
  | [a] => a
  | a :: b :: rest => a + b * 256 + words_le rest

/-- Proof-side normal form of the double fold plus 16-bit truncation that
`checksum` applies to the word sum. -/
def fold16 (s : Nat) : Nat :=
  (s / 65536 + s % 65536 + (s / 65536 + s % 65536) / 65536) % 65536

/-- Proof-side normal form of the final byte swap of `checksum`. -/
def swap16 (f : Nat) : Nat :=
  f % 256 * 256 + f / 256

/-- The padding step of `checksum`. -/
def pad_even (octets : List Nat) : List Nat :=
  if octets.length % 2 = 1 then octets ++ [0] else octets

theorem pad_even_length_even (octets : List Nat) : (pad_even octets).length % 2 = 0 := by
  unfold pad_even
  by_cases h : octets.length % 2 = 1
  · rw [if_pos h]
    simp only [List.length_append, List.length_cons, List.length_nil]
    omega
  · rw [if_neg h]
    omega

theorem shiftLeft_lor_eq_add : (n : Nat) → (a b : Nat) → b < 2 ^ n → (a <<< n) ||| b = a <<< n + b
  | 0, a, b, h => by
      interval_cases b
      simp
  | n + 1, a, b, h => by
      have hb : b = Nat.bit b.bodd b.div2 := (Nat.bit_decomp b).symm
      have hdiv : b.div2 < 2 ^ n := by
        rw [Nat.div2_val]
        omega
      have hsh : a <<< (n + 1) = Nat.bit false (a <<< n) := by
        rw [Nat.bit_val, Nat.shiftLeft_eq, Nat.shiftLeft_eq, Nat.pow_succ]
        simp
        ring
      rw [hb, hsh, Nat.lor_bit, Bool.false_or]
      rw [shiftLeft_lor_eq_add n a b.div2 hdiv]
      simp [Nat.bit_val]
      omega

theorem words_le_words : (l : List Nat) → l.length % 2 = 0 →
    ((List.range' 0 (l.length / 2) 2).map (fun i => to_integer_le ((l.drop i).take 2) 8)).sum
      = words_le l
  | [], _ => by simp [words_le]
  | [a], h => by simp at h
  | a :: b :: r, h => by
      have hr : r.length % 2 = 0 := by
        simp only [List.length_cons] at h
        omega
      have hlen : (a :: b :: r).length / 2 = r.length / 2 + 1 := by
        simp only [List.length_cons]
        omega
      rw [hlen, List.range'_succ, List.map_cons, List.sum_cons]
      have hhead : to_integer_le (((a :: b :: r).drop 0).take 2) 8 = a + b * 256 := by
        simp [to_integer_le, Nat.shiftLeft_eq]
      have htail : (List.range' (0 + 2) (r.length / 2) 2).map
          (fun i => to_integer_le (((a :: b :: r).drop i).take 2) 8)
          = (List.range' 0 (r.length / 2) 2).map (fun i => to_integer_le ((r.drop i).take 2) 8) := by
        rw [← List.map_add_range' 2 0 (r.length / 2) 2, List.map_map]
        apply List.map_congr_left
        intro x _
        simp only [Function.comp]
        have hdrop : (a :: b :: r).drop (2 + x) = r.drop x := by
          rw [show 2 + x = x + 2 by omega]
          rfl
        rw [hdrop]
      rw [htail, hhead, words_le_words r hr]
      simp [words_le]

theorem words_le_append : (A : List Nat) → (B : List Nat) → A.length % 2 = 0 →
    words_le (A ++ B) = words_le A + words_le B
  | [], B, _ => by simp [words_le]
  | [a], B, h => by simp at h
  | a :: b :: r, B, h => by
      have hr : r.length % 2 = 0 := by
        simp only [List.length_cons] at h
        omega
      have ih := words_le_append r B hr
      show words_le (a :: b :: (r ++ B)) = words_le (a :: b :: r) + words_le B
      simp only [words_le]
      omega

theorem words_le_le : (l : List Nat) → (∀ x ∈ l, x < 256) →
    2 * words_le l ≤ l.length * 65535
  | [], _ => by simp [words_le]
  | [a], hb => by
      have : a < 256 := hb a (by simp)
      simp only [words_le, List.length_cons, List.length_nil]
      omega
  | a :: b :: r, hb => by
      have ha : a < 256 := hb a (by simp)
      have hbb : b < 256 := hb b (by simp)
      have ih := words_le_le r (fun x hx => hb x (by simp [hx]))
      simp only [words_le, List.length_cons]
      omega

theorem swap_shift_eq (f : Nat) (h : f ≤ 65535) :
    (f <<< 8 + f >>> 8 % 256) % 65536 = swap16 f := by
  unfold swap16
  rw [Nat.shiftLeft_eq, Nat.shiftRight_eq_div_pow]
  have e : (2 : Nat) ^ 8 = 256 := by norm_num
  rw [e]
  have h2 : f / 256 % 256 = f / 256 := Nat.mod_eq_of_lt (by omega)
  rw [h2]
  omega

theorem checksum_eq (octets : List Nat) :
    checksum octets = swap16 (65535 - fold16 (words_le (pad_even octets))) := by
  have hshr16 : ∀ x : Nat, x >>> 16 = x / 65536 := by
    intro x
    rw [Nat.shiftRight_eq_div_pow]
  have hpad : (if octets.length % 2 = 1 then octets ++ [0] else octets) = pad_even octets := rfl
  simp only [checksum, hpad, hshr16, and_65535_eq_mod, and_255_eq_mod]
  rw [words_le_words (pad_even octets) (pad_even_length_even octets)]
  set S := words_le (pad_even octets) with hS
  set f := 65535 - (S / 65536 + S % 65536 + (S / 65536 + S % 65536) / 65536) % 65536 with hf
  have hf16 : f ≤ 65535 := by
    rw [hf]
    omega
  have hflt : f >>> 8 % 256 < 2 ^ 8 := by
    have h1 : f >>> 8 % 256 < 256 := Nat.mod_lt _ (by norm_num)
    simpa using h1
  rw [Nat.lor_comm, shiftLeft_lor_eq_add 8 f (f >>> 8 % 256) hflt, swap_shift_eq f hf16]
  congr 1

theorem checksum_le (octets : List Nat) : checksum octets ≤ 65535 := by
  rw [checksum_eq]
  unfold swap16
  have h : 65535 - fold16 (words_le (pad_even octets)) ≤ 65535 := by omega
  omega

/-- Behaviour of the double fold: for any word sum in range, the folded value
is at most 65535, is congruent to the sum modulo 65535, and vanishes exactly
with the sum. -/
theorem fold16_reduce (s : Nat) (hs : s < 4294967296 + 65535) :
    fold16 s % 65535 = s % 65535 ∧ fold16 s ≤ 65535 ∧
      (fold16 s = 0 → s = 0) ∧ (s = 0 → fold16 s = 0) := by
  unfold fold16
  generalize ha : s / 65536 + s % 65536 = a
  have hs1 : s / 65536 ≤ 65536 := by omega
  have hs2 : s % 65536 ≤ 65535 := by omega
  have haa : a ≤ 131070 := by omega
  rcases Nat.lt_or_ge a 65536 with hc | hc
  · have e1 : a / 65536 = 0 := Nat.div_eq_of_lt hc
    rw [e1, Nat.add_zero, Nat.mod_eq_of_lt hc]
    omega
  · have e1 : a / 65536 = 1 := by omega
    rw [e1]
    have e2 : (a + 1) % 65536 = a + 1 - 65536 := by omega
    rw [e2]
    omega

/-- Re-folding after adding the 16-bit one's complement of the folded word
sum lands exactly on 65535 (all-ones), provided the original sum is below
2 ^ 32. -/
theorem fold16_insert (s : Nat) (hs : s < 4294967296) :
    fold16 (s + (65535 - fold16 s)) = 65535 := by
  have h1 := fold16_reduce s (by omega)
  have h2 := fold16_reduce (s + (65535 - fold16 s)) (by omega)
  omega

/-- The little-endian word read back from the two big-endian checksum bytes
is the 16-bit one's complement of the folded word sum. -/
theorem checksum_word (octets : List Nat) :
    checksum octets / 256 % 256 + checksum octets % 256 * 256
      = 65535 - fold16 (words_le (pad_even octets)) := by
  rw [checksum_eq]
  unfold swap16
  have h : 65535 - fold16 (words_le (pad_even octets)) ≤ 65535 := by omega
  set g := 65535 - fold16 (words_le (pad_even octets)) with hg
  have h1 : g / 256 < 256 := by omega
  have h2 : g % 256 < 256 := by omega
  have d0 : g / 256 / 256 = 0 := Nat.div_eq_of_lt h1
  have d1 : (g % 256 * 256 + g / 256) / 256 = g % 256 := by
    rw [mul_comm, Nat.mul_add_div (by norm_num : (0:Nat) < 256), d0, Nat.add_zero]
  have e1 : (g % 256 * 256 + g / 256) / 256 % 256 = g % 256 := by
    rw [d1]
    exact Nat.mod_eq_of_lt h2
  have e2 : (g % 256 * 256 + g / 256) % 256 = g / 256 := by
    rw [mul_comm, Nat.mul_add_mod]
    exact Nat.mod_eq_of_lt h1
  rw [e1, e2]
  omega

/-- Length of the padded buffer. -/
theorem pad_even_length_le (B : List Nat) : (pad_even B).length ≤ B.length + 1 := by
  unfold pad_even
  by_cases hb : B.length % 2 = 1
  · rw [if_pos hb]
    simp
  · rw [if_neg hb]
    omega

theorem pad_even_mem_lt (B : List Nat) (hBb : ∀ x ∈ B, x < 256) :
    ∀ x ∈ pad_even B, x < 256 := by
  intro x hx
  unfold pad_even at hx
  by_cases hb : B.length % 2 = 1
  · rw [if_pos hb] at hx
    rcases List.mem_append.mp hx with h | h
    · exact hBb x h
    · simp at h
      omega
  · rw [if_neg hb] at hx
    exact hBb x hx

/-- Padding a buffer that decomposes as even-length prefix, an even-length
middle and a tail only pads the tail, at the level of word sums. -/
theorem pad_words (A X B : List Nat) (hA : A.length % 2 = 0) (hX : X.length % 2 = 0) :
    words_le (pad_even (A ++ X ++ B)) = words_le A + words_le X + words_le (pad_even B) := by
  unfold pad_even
  have hlen : (A ++ X ++ B).length % 2 = B.length % 2 := by
    simp only [List.length_append]
    omega
  by_cases hb : B.length % 2 = 1
  · rw [if_pos (by omega), if_pos hb]
    have e : (A ++ X ++ B) ++ [0] = A ++ (X ++ (B ++ [0])) := by
      simp [List.append_assoc]
    rw [e, words_le_append A _ hA, words_le_append X _ hX]
    ring
  · rw [if_neg (by omega), if_neg hb]
    have e : A ++ X ++ B = A ++ (X ++ B) := by
      simp [List.append_assoc]
    rw [e, words_le_append A _ hA, words_le_append X _ hX]
    ring

/-- The self-consistency engine: writing the 2-byte big-endian encoding of
the checksum of a buffer whose 16-bit-aligned checksum field is zero back
into that field produces a buffer whose checksum is 0, for buffers whose
padded word sum stays below 2 ^ 32. -/
theorem checksum_insert_eq_zero (A B : List Nat) (hA : A.length % 2 = 0)
    (hAb : ∀ x ∈ A, x < 256) (hBb : ∀ x ∈ B, x < 256)
    (hlen : A.length + B.length ≤ 131068) :
    checksum (A ++ to_octets (checksum (A ++ [0, 0] ++ B)) 2 ++ B) = 0 := by
  have hc := checksum_le (A ++ [0, 0] ++ B)
  set c := checksum (A ++ [0, 0] ++ B) with hcdef
  have hw0 := pad_words A [0, 0] B hA (by simp)
  have hw1 := pad_words A [c / 256 % 256, c % 256] B hA (by simp)
  rw [to_octets_two, checksum_eq, hw1]
  have hwx : words_le [c / 256 % 256, c % 256] = c / 256 % 256 + c % 256 * 256 := by
    simp [words_le]
  have hword := checksum_word (A ++ [0, 0] ++ B)
  rw [hw0] at hword
  have hz : words_le [0, 0] = 0 := by
    simp [words_le]
  have hbA := words_le_le A hAb
  have hbB := words_le_le (pad_even B) (pad_even_mem_lt B hBb)
  have hlB : (pad_even B).length ≤ B.length + 1 := pad_even_length_le B
  have hS : words_le A + words_le [0, 0] + words_le (pad_even B) < 4294967296 := by
    have h1 : 2 * words_le A ≤ A.length * 65535 := hbA
    have h2 : 2 * words_le (pad_even B) ≤ (pad_even B).length * 65535 := hbB
    have h3 : (pad_even B).length * 65535 ≤ (B.length + 1) * 65535 :=
      Nat.mul_le_mul_right _ hlB
    have h4 : A.length * 65535 + (B.length + 1) * 65535 ≤ 131069 * 65535 := by
      have : A.length * 65535 + (B.length + 1) * 65535 = (A.length + B.length + 1) * 65535 := by
        ring
      rw [this]
      exact Nat.mul_le_mul_right _ (by omega)
    omega
  have harg : words_le A + words_le [c / 256 % 256, c % 256] + words_le (pad_even B)
      = (words_le A + words_le [0, 0] + words_le (pad_even B))
        + (65535 - fold16 (words_le A + words_le [0, 0] + words_le (pad_even B))) := by
    rw [hwx, hword]
    omega
  rw [harg, fold16_insert _ hS]
  unfold swap16
  norm_num

/-!
Spec-side definition of the checksum algorithm (section 4.2 of the spec),
written independently from the spec's words: pad to even length, sum the
16-bit little-endian words, fold the upper 16 bits into the lower 16 bits,
repeat the fold once more, take the one's complement of the 16-bit result,
and swap the high and low bytes of that complemented value.
-/
def internet_checksum_spec (octets : List Nat) : Nat :=
  let padded := if octets.length % 2 = 1 then octets ++ [0] else octets
  let s := words_le padded
  let s := (s >>> 16) + (s &&& 0xffff)
  let s := (s >>> 16) + (s &&& 0xffff)
  let c := 0xffff - (s &&& 0xffff)
  c % 256 * 256 + c / 256

theorem fold16_eq_double_fold (s : Nat) :
    fold16 s = ((s / 65536 + s % 65536) / 65536 + (s / 65536 + s % 65536) % 65536) % 65536 := by
  unfold fold16
  generalize s / 65536 + s % 65536 = a
  omega

/-- Claim C4: the checksum routine computes exactly the spec's algorithm
(odd-length zero padding, 16-bit little-endian word sum, two folds, 16-bit
one's complement, byte swap), and its result fits in 16 bits. -/
theorem c4_checksum_algorithm (octets : List Nat) :
    checksum octets = internet_checksum_spec octets ∧ checksum octets < 65536 := by
  constructor
  · rw [checksum_eq]
    have hshr16 : ∀ x : Nat, x >>> 16 = x / 65536 := by
      intro x
      rw [Nat.shiftRight_eq_div_pow]
    have hpad : (if octets.length % 2 = 1 then octets ++ [0] else octets) = pad_even octets := rfl
    simp only [internet_checksum_spec, hpad, hshr16, and_65535_eq_mod]
    rw [fold16_eq_double_fold]
    unfold swap16
    rfl
  · have h := checksum_le octets
    omega

theorem pad_even_eq_self (l : List Nat) (h : l.length % 2 = 0) : pad_even l = l := by
  unfold pad_even
  rw [if_neg (by omega)]

theorem words_le_replicate (n : Nat) (rest : List Nat) :
    words_le (List.replicate (2 * n) 255 ++ rest) = n * 65535 + words_le rest := by
  induction n with
  | zero => simp
  | succ n ih =>
    have e : List.replicate (2 * (n + 1)) (255 : Nat) = 255 :: 255 :: List.replicate (2 * n) 255 := by
      rw [show 2 * (n + 1) = 2 * n + 1 + 1 by ring, List.replicate_succ, List.replicate_succ]
    rw [e]
    show words_le (255 :: 255 :: (List.replicate (2 * n) 255 ++ rest)) = (n + 1) * 65535 + words_le rest
    simp only [words_le]
    rw [ih]
    ring


def bigH : List Nat :=
  List.replicate 131076 255 ++ [1, 0, 0, 0]

theorem replicate_part_length : (List.replicate 131076 (255 : Nat)).length = 131076 :=
  List.length_replicate 131076 255

theorem bigH_length : bigH.length = 131080 := by
  unfold bigH
  rw [List.length_append, replicate_part_length]
  rfl

example : fold16 (65538 * 65535 + 1) = 0 := by norm_num [fold16]

example : swap16 (65535 - fold16 (65538 * 65535 + 1)) = 65535 := by norm_num [fold16, swap16]

theorem bigH_words : words_le (pad_even bigH) = 65538 * 65535 + 1 := by
  have hlen : bigH.length % 2 = 0 := by
    rw [bigH_length]
  rw [pad_even_eq_self bigH hlen]
  unfold bigH
  rw [show (131076 : Nat) = 2 * 65538 by norm_num, words_le_replicate]
  norm_num [words_le]

theorem bigH_checksum : checksum bigH = 65535 := by
  rw [checksum_eq, bigH_words]
  norm_num [fold16, swap16]

theorem bigH_take : bigH.take 131078 = List.replicate 131076 255 ++ [1, 0] := by
  unfold bigH
  rw [show (131078 : Nat) = (List.replicate 131076 (255 : Nat)).length + 2 by
    rw [replicate_part_length]]
  rw [List.take_append]
  rfl

theorem bigH_field : (bigH.drop 131078).take 2 = [0, 0] := by
  unfold bigH
  rw [show (131078 : Nat) = (List.replicate 131076 (255 : Nat)).length + 2 by
    rw [replicate_part_length]]
  rw [List.drop_append]
  rfl

theorem bigH_drop : bigH.drop 131080 = [] := by
  apply List.drop_eq_nil_of_le
  rw [bigH_length]

theorem bigH_insert_words :
    words_le (pad_even (List.replicate 131076 255 ++ [1, 0, 255, 255])) = 65538 * 65535 + 65536 := by
  have hlen2 : (List.replicate 131076 (255 : Nat) ++ [1, 0, 255, 255]).length % 2 = 0 := by
    rw [List.length_append, replicate_part_length]
    rfl
  rw [pad_even_eq_self _ hlen2]
  rw [show (131076 : Nat) = 2 * 65538 by norm_num, words_le_replicate]
  norm_num [words_le]

theorem bigH_insert_checksum :
    checksum (bigH.take 131078 ++ to_octets (checksum bigH) 2 ++ bigH.drop 131080) = 65535 := by
  rw [bigH_checksum, bigH_take, bigH_drop]
  have hoct : to_octets 65535 2 = [255, 255] := by
    rw [to_octets_two]
  rw [hoct]
  have e : (List.replicate 131076 (255 : Nat) ++ [1, 0]) ++ [255, 255] ++ ([] : List Nat)
      = List.replicate 131076 255 ++ [1, 0, 255, 255] := by
    rw [List.append_nil, List.append_assoc]
    rfl
  rw [e, checksum_eq, bigH_insert_words]
  norm_num [fold16, swap16]

/-- Claim C5 (counterexample): for the 131080-byte buffer `bigH`, whose
2-byte checksum field at even offset 131078 is zero, writing the big-endian
encoding of `checksum bigH` into that field and re-running the engine yields
65535, not 0: the second fold `s += s >> 16` fails to absorb the carry once
the word sum reaches 2 ^ 32. -/
theorem c5_counterexample :
    131078 % 2 = 0 ∧ (bigH.drop 131078).take 2 = [0, 0] ∧
      checksum (bigH.take 131078 ++ to_octets (checksum bigH) 2 ++ bigH.drop (131078 + 2)) ≠ 0 := by
  refine ⟨by norm_num, bigH_field, ?_⟩
  rw [show (131078 + 2 : Nat) = 131080 from rfl, bigH_insert_checksum]
  norm_num

/-- Claim C5 (amended): for every byte buffer of at most 131070 bytes whose
2-byte checksum field (at an even, 16-bit-aligned offset) is zero, writing
the 2-byte big-endian encoding of `checksum H` into that field and applying
`checksum` to the resulting buffer yields exactly 0. -/
theorem c5_amended (H : List Nat) (k : Nat) (hk : k % 2 = 0)
    (hfield : (H.drop k).take 2 = [0, 0]) (hkl : k + 2 ≤ H.length)
    (hb : ∀ x ∈ H, x < 256) (hsize : H.length ≤ 131070) :
    checksum (H.take k ++ to_octets (checksum H) 2 ++ H.drop (k + 2)) = 0 := by
  have h2 : (H.drop k).drop 2 = H.drop (k + 2) := by
    rw [List.drop_drop]
  have hdecomp : H = H.take k ++ [0, 0] ++ H.drop (k + 2) := by
    conv_lhs => rw [← List.take_append_drop k H]
    rw [List.append_assoc]
    congr 1
    rw [← h2, ← hfield]
    exact (List.take_append_drop 2 (H.drop k)).symm
  have hAlen : (H.take k).length = k := by
    rw [List.length_take]
    omega
  have hAb : ∀ x ∈ H.take k, x < 256 := fun x hx => hb x (List.take_subset k H hx)
  have hBb : ∀ x ∈ H.drop (k + 2), x < 256 := fun x hx => hb x (List.drop_subset (k + 2) H hx)
  have hABlen : (H.take k).length + (H.drop (k + 2)).length ≤ 131068 := by
    rw [hAlen, List.length_drop]
    omega
  have hcore := checksum_insert_eq_zero (H.take k) (H.drop (k + 2))
    (by rw [hAlen]; exact hk) hAb hBb hABlen
  rw [← hdecomp] at hcore
  exact hcore

/-- Witness for the amended C5 at a concrete 4-byte header with its zeroed
checksum field at offset 2. -/
theorem c5_amended_witness :
    2 % 2 = 0 ∧ (([255, 1, 0, 0] : List Nat).drop 2).take 2 = [0, 0] ∧
      2 + 2 ≤ ([255, 1, 0, 0] : List Nat).length ∧
      (∀ x ∈ ([255, 1, 0, 0] : List Nat), x < 256) ∧
      ([255, 1, 0, 0] : List Nat).length ≤ 131070 ∧
      checksum (([255, 1, 0, 0] : List Nat).take 2 ++
        to_octets (checksum ([255, 1, 0, 0] : List Nat)) 2 ++
        ([255, 1, 0, 0] : List Nat).drop (2 + 2)) = 0 :=
  ⟨by norm_num, by decide, by decide, by decide, by decide,
    c5_amended [255, 1, 0, 0] 2 (by norm_num) (by decide) (by decide) (by decide) (by decide)⟩

/-- Claim C6 (counterexample): the spec's example value is wrong on the code:
`to_bits 0b10110100 2 3 8` is `(0b10110100 >> 3) & 0b111 = 0b110 = 6`, not
`0b101 = 5` (5 would be the result of counting the offset from the
least-significant bit). -/
theorem c6_counterexample : to_bits 0b10110100 2 3 8 ≠ 0b101 := by
  decide

/-- Claim C6 (amended): extracting the 3-bit field at offset 2 (counted from
the most-significant bit) of the 8-bit value 0b10110100 yields 0b110 (6),
i.e. the bits at MSB-offsets 2, 3, 4, which are 1, 1, 0. -/
theorem c6_amended : to_bits 0b10110100 2 3 8 = 0b110 := by
  decide

/-- Claim C9 (counterexample): MACAddress construction performs no
validation: a 2-byte input is neither rejected nor extended, it yields an
address of exactly 2 octets. -/
theorem c9_counterexample :
    (MACAddress.ofOctets [1, 2]).address.length = 2 ∧
      (MACAddress.ofOctets [1, 2]).address.length ≠ 6 := by
  decide

/-- Claim C9 (amended): MACAddress construction stores exactly the input's
octets in order, so it holds 6 elements precisely when constructed from a
6-octet input (as EthernetFrame does, from a 12-byte-or-longer buffer). -/
theorem c9_amended (octets : List Nat) :
    (MACAddress.ofOctets octets).address = octets ∧
      (MACAddress.ofOctets octets).address.length = octets.length :=
  ⟨rfl, rfl⟩

/-- Claim C8: any buffer whose ethertype bytes (offsets 12 and 13) are
0x08 0x06 is rejected by the frame decoder with the unsupported-ethertype
error, producing no frame. -/
theorem c8_arp_rejected (octets : List Nat) (hlen : 14 ≤ octets.length)
    (h12 : octets.getD 12 0 = 8) (h13 : octets.getD 13 0 = 6) :
    decodeEthernet octets = Except.error ParseError.unsupportedEthertype := by
  simp only [decodeEthernet, h12, h13]
  rw [if_pos hlen]
  rfl

/-- A 14-byte ARP frame header: 12 zero bytes of addresses, then the
ethertype bytes 0x08 0x06. -/
def arpBuf : List Nat :=
  List.replicate 12 0 ++ [8, 6]

/-- Witness for C8 at the concrete ARP buffer. -/
theorem c8_arp_rejected_witness :
    14 ≤ arpBuf.length ∧ arpBuf.getD 12 0 = 8 ∧ arpBuf.getD 13 0 = 6 ∧
      decodeEthernet arpBuf = Except.error ParseError.unsupportedEthertype :=
  ⟨by decide, by decide, by decide, c8_arp_rejected arpBuf (by decide) (by decide) (by decide)⟩

/-!
Inversion lemmas for the three decoders.
-/

theorem decodeTCP_inv {l : List Nat} {t : TCPPacket} (h : decodeTCP l = Except.ok t) :
    14 ≤ l.length ∧
    t = { source_port := to_integer (l.take 2) 8
          dest_port := to_integer ((l.drop 2).take 2) 8
          sequence := to_integer ((l.drop 4).take 4) 8
          ack_number := to_integer ((l.drop 8).take 4) 8
          data_offset := to_bits (l.getD 12 0) 0 4 8
          reserved := to_bits (l.getD 12 0) 4 3 8
          NS := to_bits (l.getD 12 0) 7 1 8 ≠ 0
          CWR := to_bits (l.getD 13 0) 0 1 8 ≠ 0
          ECE := to_bits (l.getD 13 0) 1 1 8 ≠ 0
          URG := to_bits (l.getD 13 0) 2 1 8 ≠ 0
          ACK := to_bits (l.getD 13 0) 3 1 8 ≠ 0
          PSH := to_bits (l.getD 13 0) 4 1 8 ≠ 0
          RST := to_bits (l.getD 13 0) 5 1 8 ≠ 0
          SYN := to_bits (l.getD 13 0) 6 1 8 ≠ 0
          FIN := to_bits (l.getD 13 0) 7 1 8 ≠ 0
          window_size := to_integer ((l.drop 14).take 2) 8
          checksum := to_integer ((l.drop 16).take 2) 8
          urgent_pointer := to_integer ((l.drop 18).take 2) 8
          options := to_integer ((l.drop 20).take (4 * to_bits (l.getD 12 0) 0 4 8 - 20)) 8
          payload := l.drop (4 * to_bits (l.getD 12 0) 0 4 8) } := by
  simp only [decodeTCP] at h
  by_cases hl : 14 ≤ l.length
  · rw [if_pos hl] at h
    exact ⟨hl, (Except.ok.inj h).symm⟩
  · rw [if_neg hl] at h
    exact Except.noConfusion h

theorem decodeIPv4_inv {l : List Nat} {p : IPv4Packet} (h : decodeIPv4 l = Except.ok p) :
    1 ≤ l.length ∧ to_bits (l.getD 0 0) 0 4 8 = 4 ∧ 10 ≤ l.length ∧ l.getD 9 0 = 6 ∧
    decodeTCP (l.drop (4 * to_bits (l.getD 0 0) 4 4 8)) = Except.ok p.payload ∧
    p = { version := to_bits (l.getD 0 0) 0 4 8
          ihl := to_bits (l.getD 0 0) 4 4 8
          dscp := to_bits (l.getD 1 0) 0 6 8
          ecn := to_bits (l.getD 1 0) 6 2 8
          length := to_integer ((l.drop 2).take 2) 8
          identification := to_integer ((l.drop 4).take 2) 8
          flags := to_bits (to_integer ((l.drop 6).take 2) 8) 0 3 16
          fragment_offset := to_bits (to_integer ((l.drop 6).take 2) 8) 3 13 16
          ttl := l.getD 8 0
          protocol := l.getD 9 0
          checksum := to_integer ((l.drop 10).take 2) 8
          source_address := IPv4Address.ofOctets ((l.drop 12).take 4)
          dest_address := IPv4Address.ofOctets ((l.drop 16).take 4)
          options := to_integer ((l.drop 20).take (4 * to_bits (l.getD 0 0) 4 4 8 - 20)) 8
          payload := p.payload } := by
  simp only [decodeIPv4] at h
  by_cases h1 : 1 ≤ l.length
  · rw [if_pos h1] at h
    by_cases h2 : to_bits (l.getD 0 0) 0 4 8 = 4
    · rw [if_neg (fun hn => hn h2)] at h
      by_cases h3 : 10 ≤ l.length
      · rw [if_pos h3] at h
        by_cases h4 : l.getD 9 0 = 6
        · rw [if_neg (fun hn => hn h4)] at h
          cases hT : decodeTCP (l.drop (4 * to_bits (l.getD 0 0) 4 4 8)) with
          | ok t =>
              rw [hT] at h
              have hp := (Except.ok.inj h).symm
              subst hp
              refine ⟨h1, h2, h3, h4, ?_, rfl⟩
              simpa using hT
          | error e =>
              rw [hT] at h
              exact Except.noConfusion h
        · rw [if_pos h4] at h
          exact Except.noConfusion h
      · rw [if_neg h3] at h
        exact Except.noConfusion h
    · rw [if_pos h2] at h
      exact Except.noConfusion h
  · rw [if_neg h1] at h
    exact Except.noConfusion h

theorem decodeEthernet_inv {l : List Nat} {f : EthernetFrame}
    (h : decodeEthernet l = Except.ok f) :
    14 ≤ l.length ∧ (l.getD 12 0 <<< 8) + l.getD 13 0 = 2048 ∧
    decodeIPv4 (l.drop 14) = Except.ok f.payload ∧
    f = { dest_address := MACAddress.ofOctets (l.take 6)
          source_address := MACAddress.ofOctets ((l.drop 6).take 6)
          ethertype := (l.getD 12 0 <<< 8) + l.getD 13 0
          payload := f.payload } := by
  simp only [decodeEthernet] at h
  by_cases h1 : 14 ≤ l.length
  · rw [if_pos h1] at h
    by_cases h2 : (l.getD 12 0 <<< 8) + l.getD 13 0 = 2048
    · rw [if_neg (fun hn => hn h2)] at h
      cases hP : decodeIPv4 (l.drop 14) with
      | ok p =>
          rw [hP] at h
          have hf := (Except.ok.inj h).symm
          subst hf
          refine ⟨h1, h2, ?_, rfl⟩
          simpa using hP
      | error e =>
          rw [hP] at h
          exact Except.noConfusion h
    · rw [if_pos h2] at h
      exact Except.noConfusion h
  · rw [if_neg h1] at h
    exact Except.noConfusion h

/-- Claim C7: the IPv4 recompute zeroes the header-checksum field, then sets
it to the checksum of the IPv4 header bytes alone - serialized with the
zeroed field, options included, and with no payload bytes in the input - and
leaves every other IPv4 field unchanged. -/
theorem c7_ipv4_recompute_checksum (p : IPv4Packet) :
    (p.replace_checksum).checksum = checksum ({ p with checksum := 0 } : IPv4Packet).raw_header ∧
    ({ p with checksum := 0 } : IPv4Packet).raw_header
      = to_octets (to_integer [p.version, p.ihl] 4) 1 ++
        to_octets ((p.dscp <<< 2) + p.ecn) 1 ++
        to_octets p.length 2 ++
        to_octets p.identification 2 ++
        to_octets ((p.flags <<< 13) + p.fragment_offset) 2 ++
        to_octets p.ttl 1 ++
        to_octets p.protocol 1 ++
        to_octets 0 2 ++
        p.source_address.address ++
        p.dest_address.address ++
        to_octets p.options ((p.ihl - 5) * 4) ∧
    (p.replace_checksum).version = p.version ∧
    (p.replace_checksum).ihl = p.ihl ∧
    (p.replace_checksum).dscp = p.dscp ∧
    (p.replace_checksum).ecn = p.ecn ∧
    (p.replace_checksum).length = p.length ∧
    (p.replace_checksum).identification = p.identification ∧
    (p.replace_checksum).flags = p.flags ∧
    (p.replace_checksum).fragment_offset = p.fragment_offset ∧
    (p.replace_checksum).ttl = p.ttl ∧
    (p.replace_checksum).protocol = p.protocol ∧
    (p.replace_checksum).source_address = p.source_address ∧
    (p.replace_checksum).dest_address = p.dest_address ∧
    (p.replace_checksum).options = p.options ∧
    (p.replace_checksum).payload = p.payload :=
  ⟨rfl, rfl, rfl, rfl, rfl, rfl, rfl, rfl, rfl, rfl, rfl, rfl, rfl, rfl, rfl, rfl⟩

/-- Claim C3: the TCP recompute sets the checksum field to the checksum of
the parent's pseudo-header (source address, destination address, one zero
byte, the protocol byte, and the 16-bit big-endian length of the TCP segment
as serialized at call time, with the checksum field already zeroed)
concatenated with the TCP header bytes alone - the TCP payload bytes are not
part of the checksummed input - leaving every other TCP field unchanged; the
pseudo-header has exactly 12 bytes whenever the parent's two addresses hold
4 octets each. -/
theorem c3_tcp_recompute_checksum (t : TCPPacket) (parent : IPv4Packet) :
    (t.replace_checksum parent).checksum
      = checksum (parent.source_address.address ++ parent.dest_address.address ++
          [0] ++ [parent.protocol % 256] ++
          [({ t with checksum := 0 } : TCPPacket).raw.length / 256 % 256,
           ({ t with checksum := 0 } : TCPPacket).raw.length % 256] ++
          ({ t with checksum := 0 } : TCPPacket).raw_header) ∧
    (parent.source_address.address.length = 4 → parent.dest_address.address.length = 4 →
      (parent.source_address.address ++ parent.dest_address.address ++ [0] ++
        [parent.protocol % 256] ++
        [({ t with checksum := 0 } : TCPPacket).raw.length / 256 % 256,
         ({ t with checksum := 0 } : TCPPacket).raw.length % 256]).length = 12) ∧
    (t.replace_checksum parent).source_port = t.source_port ∧
    (t.replace_checksum parent).dest_port = t.dest_port ∧
    (t.replace_checksum parent).sequence = t.sequence ∧
    (t.replace_checksum parent).ack_number = t.ack_number ∧
    (t.replace_checksum parent).data_offset = t.data_offset ∧
    (t.replace_checksum parent).reserved = t.reserved ∧
    (t.replace_checksum parent).NS = t.NS ∧
    (t.replace_checksum parent).CWR = t.CWR ∧
    (t.replace_checksum parent).ECE = t.ECE ∧
    (t.replace_checksum parent).URG = t.URG ∧
    (t.replace_checksum parent).ACK = t.ACK ∧
    (t.replace_checksum parent).PSH = t.PSH ∧
    (t.replace_checksum parent).RST = t.RST ∧
    (t.replace_checksum parent).SYN = t.SYN ∧
    (t.replace_checksum parent).FIN = t.FIN ∧
    (t.replace_checksum parent).window_size = t.window_size ∧
    (t.replace_checksum parent).urgent_pointer = t.urgent_pointer ∧
    (t.replace_checksum parent).options = t.options ∧
    (t.replace_checksum parent).payload = t.payload := by
  refine ⟨?_, ?_, rfl, rfl, rfl, rfl, rfl, rfl, rfl, rfl, rfl, rfl, rfl, rfl, rfl, rfl, rfl,
    rfl, rfl, rfl, rfl⟩
  · show inet_checksum
      (({ parent with payload := { t with checksum := 0 } } : IPv4Packet).tcp_checksum_bytes ++
        ({ t with checksum := 0 } : TCPPacket).raw_header) = _
    unfold IPv4Packet.tcp_checksum_bytes
    rw [to_octets_one, to_octets_one, to_octets_two]
  · intro h1 h2
    simp only [List.length_append, List.length_cons, List.length_nil, h1, h2]

/-- A concrete TCP packet for witnesses. -/
def tcpW : TCPPacket :=
  { source_port := 80, dest_port := 5, sequence := 1000, ack_number := 2000,
    data_offset := 5, reserved := 0, NS := false, CWR := false, ECE := false,
    URG := false, ACK := true, PSH := false, RST := false, SYN := false,
    FIN := false, window_size := 100, checksum := 77, urgent_pointer := 0,
    options := 0, payload := [1, 2, 3] }

/-- A concrete IPv4 packet for witnesses; its total-length field matches its
serialized length (20 + 20 + 3). -/
def ipW : IPv4Packet :=
  { version := 4, ihl := 5, dscp := 0, ecn := 0, length := 43,
    identification := 7, flags := 2, fragment_offset := 0, ttl := 64,
    protocol := 6, checksum := 99,
    source_address := IPv4Address.ofOctets [10, 0, 0, 1],
    dest_address := IPv4Address.ofOctets [10, 0, 0, 2],
    options := 0, payload := tcpW }

/-- Witness for C3 at concrete packets, with the 12-byte pseudo-header
conjunct discharged. -/
theorem c3_tcp_recompute_checksum_witness :
    ipW.source_address.address.length = 4 ∧ ipW.dest_address.address.length = 4 ∧
      (ipW.source_address.address ++ ipW.dest_address.address ++ [0] ++
        [ipW.protocol % 256] ++
        [({ tcpW with checksum := 0 } : TCPPacket).raw.length / 256 % 256,
         ({ tcpW with checksum := 0 } : TCPPacket).raw.length % 256]).length = 12 ∧
      (TCPPacket.replace_checksum tcpW ipW).checksum
        = checksum (ipW.source_address.address ++ ipW.dest_address.address ++
            [0] ++ [ipW.protocol % 256] ++
            [({ tcpW with checksum := 0 } : TCPPacket).raw.length / 256 % 256,
             ({ tcpW with checksum := 0 } : TCPPacket).raw.length % 256] ++
            ({ tcpW with checksum := 0 } : TCPPacket).raw_header) :=
  ⟨by decide, by decide,
    (c3_tcp_recompute_checksum tcpW ipW).2.1 (by decide) (by decide),
    (c3_tcp_recompute_checksum tcpW ipW).1⟩

theorem ipv4_raw_header_length (p : IPv4Packet) :
    p.raw_header.length
      = 12 + p.source_address.address.length + p.dest_address.address.length
        + (p.ihl - 5) * 4 := by
  unfold IPv4Packet.raw_header
  simp only [List.length_append, length_to_octets]

theorem tcp_raw_header_length (t : TCPPacket) :
    t.raw_header.length = 20 + (t.data_offset - 5) * 4 := by
  unfold TCPPacket.raw_header
  simp only [List.length_append, length_to_octets]

/-- Claim C10 (amended): forge_reset preserves every scalar IPv4 field
(version, IHL, DSCP, ECN, total length, identification, flags, fragment
offset, TTL, protocol, both addresses and options) except the header
checksum; and when the original total-length field was accurate (equal to
the serialized IPv4 length) and the original TCP payload was non-empty, the
retained total-length field strictly exceeds the length of the serialized
IPv4 packet after forging. -/
theorem c10_amended (p : IPv4Packet) (s : Nat) :
    (p.forge_reset s).version = p.version ∧
    (p.forge_reset s).ihl = p.ihl ∧
    (p.forge_reset s).dscp = p.dscp ∧
    (p.forge_reset s).ecn = p.ecn ∧
    (p.forge_reset s).length = p.length ∧
    (p.forge_reset s).identification = p.identification ∧
    (p.forge_reset s).flags = p.flags ∧
    (p.forge_reset s).fragment_offset = p.fragment_offset ∧
    (p.forge_reset s).ttl = p.ttl ∧
    (p.forge_reset s).protocol = p.protocol ∧
    (p.forge_reset s).source_address = p.source_address ∧
    (p.forge_reset s).dest_address = p.dest_address ∧
    (p.forge_reset s).options = p.options ∧
    (p.length = p.raw.length → p.payload.payload ≠ [] →
      (p.forge_reset s).raw.length < (p.forge_reset s).length) := by
  refine ⟨rfl, rfl, rfl, rfl, rfl, rfl, rfl, rfl, rfl, rfl, rfl, rfl, rfl, ?_⟩
  intro hacc hne
  have h1 := ipv4_raw_header_length p
  have h2 := ipv4_raw_header_length (p.forge_reset s)
  have h3 := tcp_raw_header_length p.payload
  have h4 := tcp_raw_header_length (p.forge_reset s).payload
  have e1 : (p.forge_reset s).ihl = p.ihl := rfl
  have e2 : (p.forge_reset s).source_address = p.source_address := rfl
  have e3 : (p.forge_reset s).dest_address = p.dest_address := rfl
  have e4 : (p.forge_reset s).payload.data_offset = p.payload.data_offset := rfl
  have e5 : (p.forge_reset s).payload.payload = ([] : List Nat) := rfl
  have e6 : (p.forge_reset s).length = p.length := rfl
  have r1 : p.raw.length = p.raw_header.length + p.payload.raw_header.length
      + p.payload.payload.length := by
    unfold IPv4Packet.raw TCPPacket.raw
    simp [List.length_append]
    omega
  have r2 : (p.forge_reset s).raw.length
      = (p.forge_reset s).raw_header.length + (p.forge_reset s).payload.raw_header.length
        + (p.forge_reset s).payload.payload.length := by
    unfold IPv4Packet.raw TCPPacket.raw
    simp [List.length_append]
    omega
  have hpl : 0 < p.payload.payload.length := List.length_pos.mpr hne
  rw [e1, e2, e3] at h2
  rw [e4] at h4
  rw [e5] at r2
  simp only [List.length_nil] at r2
  rw [e6]
  omega

/-!
Decompositions of the two serialized headers around their checksum fields,
used to apply the self-consistency engine.
-/

/-- The 10 bytes of the IPv4 header that precede the checksum field. -/
def ipv4_header_front (p : IPv4Packet) : List Nat :=
  to_octets (to_integer [p.version, p.ihl] 4) 1 ++
  (to_octets ((p.dscp <<< 2) + p.ecn) 1 ++
  (to_octets p.length 2 ++
  (to_octets p.identification 2 ++
  (to_octets ((p.flags <<< 13) + p.fragment_offset) 2 ++
  (to_octets p.ttl 1 ++
  to_octets p.protocol 1)))))

/-- The bytes of the IPv4 header that follow the checksum field. -/
def ipv4_header_back (p : IPv4Packet) : List Nat :=
  p.source_address.address ++
  (p.dest_address.address ++
  to_octets p.options ((p.ihl - 5) * 4))

theorem ipv4_raw_header_decomp (p : IPv4Packet) :
    p.raw_header = ipv4_header_front p ++ to_octets p.checksum 2 ++ ipv4_header_back p := by
  unfold IPv4Packet.raw_header ipv4_header_front ipv4_header_back
  simp [List.append_assoc]

theorem ipv4_header_front_length (p : IPv4Packet) : (ipv4_header_front p).length = 10 := by
  unfold ipv4_header_front
  simp only [List.length_append, length_to_octets]

theorem ipv4_header_front_bytes (p : IPv4Packet) : ∀ x ∈ ipv4_header_front p, x < 256 := by
  intro x hx
  unfold ipv4_header_front at hx
  simp only [List.mem_append] at hx
  rcases hx with h | h | h | h | h | h | h <;> exact mem_to_octets_lt _ _ x h

/-- The 16 bytes of the TCP header that precede the checksum field. -/
def tcp_header_front (t : TCPPacket) : List Nat :=
  to_octets t.source_port 2 ++
  (to_octets t.dest_port 2 ++
  (to_octets t.sequence 4 ++
  (to_octets t.ack_number 4 ++
  (to_octets ((t.data_offset <<< 4) + (t.reserved <<< 1) + t.NS.toNat) 1 ++
  (to_octets (to_integer
    [t.CWR.toNat, t.ECE.toNat, t.URG.toNat, t.ACK.toNat,
     t.PSH.toNat, t.RST.toNat, t.SYN.toNat, t.FIN.toNat] 1) 1 ++
  to_octets t.window_size 2)))))

/-- The bytes of the TCP header that follow the checksum field. -/
def tcp_header_back (t : TCPPacket) : List Nat :=
  to_octets t.urgent_pointer 2 ++
  to_octets t.options ((t.data_offset - 5) * 4)

theorem tcp_raw_header_decomp (t : TCPPacket) :
    t.raw_header = tcp_header_front t ++ to_octets t.checksum 2 ++ tcp_header_back t := by
  unfold TCPPacket.raw_header tcp_header_front tcp_header_back
  simp [List.append_assoc]

theorem tcp_header_front_length (t : TCPPacket) : (tcp_header_front t).length = 16 := by
  unfold tcp_header_front
  simp only [List.length_append, length_to_octets]

theorem tcp_header_front_bytes (t : TCPPacket) : ∀ x ∈ tcp_header_front t, x < 256 := by
  intro x hx
  unfold tcp_header_front at hx
  simp only [List.mem_append] at hx
  rcases hx with h | h | h | h | h | h | h <;> exact mem_to_octets_lt _ _ x h

theorem tcp_header_back_bytes (t : TCPPacket) : ∀ x ∈ tcp_header_back t, x < 256 := by
  intro x hx
  unfold tcp_header_back at hx
  simp only [List.mem_append] at hx
  rcases hx with h | h <;> exact mem_to_octets_lt _ _ x h

theorem tcp_header_back_length (t : TCPPacket) :
    (tcp_header_back t).length = 2 + (t.data_offset - 5) * 4 := by
  unfold tcp_header_back
  simp only [List.length_append, length_to_octets]

/-- After the IPv4 checksum recomputation, summing the serialized header
(with the new checksum in place) with the engine yields 0, for any packet
with byte-sized, boundedly many trailing header bytes. -/
theorem ipv4_replace_checksum_zero (p : IPv4Packet)
    (hbB : ∀ x ∈ ipv4_header_back p, x < 256)
    (hlenB : (ipv4_header_back p).length ≤ 131058) :
    checksum (p.replace_checksum).raw_header = 0 := by
  have hd0 : ({ p with checksum := 0 } : IPv4Packet).raw_header
      = ipv4_header_front p ++ [0, 0] ++ ipv4_header_back p := by
    rw [ipv4_raw_header_decomp]
    rw [show ({ p with checksum := 0 } : IPv4Packet).checksum = 0 from rfl]
    rw [show (to_octets 0 2 : List Nat) = [0, 0] from rfl]
    rw [show ipv4_header_front ({ p with checksum := 0 } : IPv4Packet) = ipv4_header_front p from rfl]
    rw [show ipv4_header_back ({ p with checksum := 0 } : IPv4Packet) = ipv4_header_back p from rfl]
  have hrepl : (p.replace_checksum).raw_header
      = ipv4_header_front p ++
        to_octets (checksum (ipv4_header_front p ++ [0, 0] ++ ipv4_header_back p)) 2 ++
        ipv4_header_back p := by
    rw [ipv4_raw_header_decomp]
    rw [show (p.replace_checksum).checksum
        = checksum (({ p with checksum := 0 } : IPv4Packet).raw_header) from rfl, hd0]
    rw [show ipv4_header_front (p.replace_checksum) = ipv4_header_front p from rfl]
    rw [show ipv4_header_back (p.replace_checksum) = ipv4_header_back p from rfl]
  rw [hrepl]
  exact checksum_insert_eq_zero (ipv4_header_front p) (ipv4_header_back p)
    (by rw [ipv4_header_front_length]) (ipv4_header_front_bytes p) hbB
    (by rw [ipv4_header_front_length]; omega)

/-- After the TCP checksum recomputation, summing the pseudo-header plus
serialized TCP header (with the new checksum in place) with the engine
yields 0, for 4-byte byte-valued addresses and a 4-bit data offset. -/
theorem tcp_replace_checksum_zero (t : TCPPacket) (parent : IPv4Packet)
    (hsrc4 : parent.source_address.address.length = 4)
    (hdst4 : parent.dest_address.address.length = 4)
    (hbsrc : ∀ x ∈ parent.source_address.address, x < 256)
    (hbdst : ∀ x ∈ parent.dest_address.address, x < 256)
    (hdoff : t.data_offset ≤ 15) :
    checksum
      (({ parent with payload := t.replace_checksum parent } : IPv4Packet).tcp_checksum_bytes
        ++ (t.replace_checksum parent).raw_header) = 0 := by
  set PH := ({ parent with
    payload := ({ t with checksum := 0 } : TCPPacket) } : IPv4Packet).tcp_checksum_bytes with hPHdef
  have hlen_raw : (t.replace_checksum parent).raw.length
      = ({ t with checksum := 0 } : TCPPacket).raw.length := by
    unfold TCPPacket.raw
    rw [List.length_append, List.length_append, tcp_raw_header_length, tcp_raw_header_length]
    rfl
  have hPH2 : ({ parent with
      payload := t.replace_checksum parent } : IPv4Packet).tcp_checksum_bytes = PH := by
    rw [hPHdef]
    unfold IPv4Packet.tcp_checksum_bytes
    change parent.source_address.address ++ parent.dest_address.address ++ to_octets 0 1 ++
        to_octets parent.protocol 1 ++ to_octets ((t.replace_checksum parent).raw.length) 2
      = parent.source_address.address ++ parent.dest_address.address ++ to_octets 0 1 ++
        to_octets parent.protocol 1 ++
        to_octets (({ t with checksum := 0 } : TCPPacket).raw.length) 2
    rw [hlen_raw]
  have ht0 : ({ t with checksum := 0 } : TCPPacket).raw_header
      = tcp_header_front t ++ [0, 0] ++ tcp_header_back t := by
    rw [tcp_raw_header_decomp]
    rw [show ({ t with checksum := 0 } : TCPPacket).checksum = 0 from rfl]
    rw [show (to_octets 0 2 : List Nat) = [0, 0] from rfl]
    rw [show tcp_header_front ({ t with checksum := 0 } : TCPPacket) = tcp_header_front t from rfl]
    rw [show tcp_header_back ({ t with checksum := 0 } : TCPPacket) = tcp_header_back t from rfl]
  have hc : (t.replace_checksum parent).checksum
      = checksum ((PH ++ tcp_header_front t) ++ [0, 0] ++ tcp_header_back t) := by
    rw [show (t.replace_checksum parent).checksum
        = checksum (PH ++ ({ t with checksum := 0 } : TCPPacket).raw_header) from rfl]
    rw [ht0]
    simp [List.append_assoc]
  have htr : (t.replace_checksum parent).raw_header
      = tcp_header_front t ++
        to_octets (checksum ((PH ++ tcp_header_front t) ++ [0, 0] ++ tcp_header_back t)) 2 ++
        tcp_header_back t := by
    rw [tcp_raw_header_decomp, hc]
    rw [show tcp_header_front (t.replace_checksum parent) = tcp_header_front t from rfl]
    rw [show tcp_header_back (t.replace_checksum parent) = tcp_header_back t from rfl]
  rw [hPH2, htr]
  have hassoc : PH ++ (tcp_header_front t ++
        to_octets (checksum ((PH ++ tcp_header_front t) ++ [0, 0] ++ tcp_header_back t)) 2 ++
        tcp_header_back t)
      = (PH ++ tcp_header_front t) ++
        to_octets (checksum ((PH ++ tcp_header_front t) ++ [0, 0] ++ tcp_header_back t)) 2 ++
        tcp_header_back t := by
    simp [List.append_assoc]
  rw [hassoc]
  have hPHlen : PH.length = 12 := by
    rw [hPHdef]
    unfold IPv4Packet.tcp_checksum_bytes
    change (parent.source_address.address ++ parent.dest_address.address ++ to_octets 0 1 ++
      to_octets parent.protocol 1 ++
      to_octets (({ t with checksum := 0 } : TCPPacket).raw.length) 2).length = 12
    simp only [List.length_append, length_to_octets, hsrc4, hdst4]
  have hPHb : ∀ x ∈ PH, x < 256 := by
    rw [hPHdef]
    unfold IPv4Packet.tcp_checksum_bytes
    change ∀ x ∈ parent.source_address.address ++ parent.dest_address.address ++ to_octets 0 1 ++
      to_octets parent.protocol 1 ++
      to_octets (({ t with checksum := 0 } : TCPPacket).raw.length) 2, x < 256
    intro x hx
    simp only [List.mem_append] at hx
    rcases hx with ((((h | h) | h) | h) | h)
    · exact hbsrc x h
    · exact hbdst x h
    · exact mem_to_octets_lt _ _ x h
    · exact mem_to_octets_lt _ _ x h
    · exact mem_to_octets_lt _ _ x h
  have hAb : ∀ x ∈ PH ++ tcp_header_front t, x < 256 := by
    intro x hx
    rcases List.mem_append.mp hx with h | h
    · exact hPHb x h
    · exact tcp_header_front_bytes t x h
  exact checksum_insert_eq_zero (PH ++ tcp_header_front t) (tcp_header_back t)
    (by rw [List.length_append, hPHlen, tcp_header_front_length])
    hAb (tcp_header_back_bytes t)
    (by rw [List.length_append, hPHlen, tcp_header_front_length, tcp_header_back_length]; omega)

/-- The TCP-field mutation step of forge_reset, split out for the proofs. -/
def forge_tcp (t : TCPPacket) (sequence : Nat) : TCPPacket :=
  { t with
    NS := false, CWR := false, ECE := false, URG := false, ACK := false,
    PSH := false, RST := true, SYN := false, FIN := false,
    sequence := sequence, ack_number := 0, window_size := 0,
    urgent_pointer := 0, payload := ([] : List Nat) }

theorem forge_reset_eq (p : IPv4Packet) (s : Nat) :
    p.forge_reset s
      = { ({ p with payload := forge_tcp p.payload s } : IPv4Packet).replace_checksum with
          payload := (forge_tcp p.payload s).replace_checksum
            (({ p with payload := forge_tcp p.payload s } : IPv4Packet).replace_checksum) } :=
  rfl

theorem forge_reset_payload (p : IPv4Packet) (s : Nat) :
    (p.forge_reset s).payload
      = (forge_tcp p.payload s).replace_checksum
          (({ p with payload := forge_tcp p.payload s } : IPv4Packet).replace_checksum) :=
  rfl

theorem ipv4_raw_header_payload_irrel (p : IPv4Packet) (x : TCPPacket) :
    ({ p with payload := x } : IPv4Packet).raw_header = p.raw_header :=
  rfl

theorem ipv4_header_back_payload_irrel (p : IPv4Packet) (x : TCPPacket) :
    ipv4_header_back { p with payload := x } = ipv4_header_back p :=
  rfl

/-- Claim C2 (amended): for every frame decoded from a byte buffer whose IP
and TCP headers are fully contained in the buffer (IHL and data offset at
least 5, buffer at least 14 + 4*IHL + 4*data_offset bytes), and every
sequence value s, forging a reset on the IPv4 layer sets RST, clears the
other eight flags, sets the sequence to s, zeroes ack/window/urgent-pointer,
empties the payload, and both recomputed checksum fields satisfy
self-consistency: the engine yields 0 over the serialized IPv4 header, and
over the pseudo-header plus serialized TCP header, each with its recomputed
field in place. -/
theorem c2_amended (octets : List Nat) (f : EthernetFrame) (s : Nat)
    (hdec : decodeEthernet octets = Except.ok f)
    (hb : ∀ x ∈ octets, x < 256)
    (hihl5 : 5 ≤ f.payload.ihl)
    (hdoff5 : 5 ≤ f.payload.payload.data_offset)
    (hlen : 14 + 4 * f.payload.ihl + 4 * f.payload.payload.data_offset ≤ octets.length) :
    (f.payload.forge_reset s).payload.RST = true ∧
    (f.payload.forge_reset s).payload.NS = false ∧
    (f.payload.forge_reset s).payload.CWR = false ∧
    (f.payload.forge_reset s).payload.ECE = false ∧
    (f.payload.forge_reset s).payload.URG = false ∧
    (f.payload.forge_reset s).payload.ACK = false ∧
    (f.payload.forge_reset s).payload.PSH = false ∧
    (f.payload.forge_reset s).payload.SYN = false ∧
    (f.payload.forge_reset s).payload.FIN = false ∧
    (f.payload.forge_reset s).payload.sequence = s ∧
    (f.payload.forge_reset s).payload.ack_number = 0 ∧
    (f.payload.forge_reset s).payload.window_size = 0 ∧
    (f.payload.forge_reset s).payload.urgent_pointer = 0 ∧
    (f.payload.forge_reset s).payload.payload = [] ∧
    checksum (f.payload.forge_reset s).raw_header = 0 ∧
    checksum ((f.payload.forge_reset s).tcp_checksum_bytes
      ++ (f.payload.forge_reset s).payload.raw_header) = 0 := by
  obtain ⟨helen, heth, hip, hf⟩ := decodeEthernet_inv hdec
  obtain ⟨hil1, hver, hil10, hproto, htcp, hp⟩ := decodeIPv4_inv hip
  obtain ⟨ht14, ht⟩ := decodeTCP_inv htcp
  have hihl15 : f.payload.ihl ≤ 15 := by
    have hq : f.payload.ihl = to_bits ((octets.drop 14).getD 0 0) 4 4 8 := by
      rw [hp]
    have hlt := to_bits_lt ((octets.drop 14).getD 0 0) 4 4 8
    rw [show (2 : Nat) ^ 4 = 16 from rfl] at hlt
    rw [hq]
    omega
  have hdoff15 : f.payload.payload.data_offset ≤ 15 := by
    have hq : f.payload.payload.data_offset
        = to_bits (((octets.drop 14).drop
            (4 * to_bits ((octets.drop 14).getD 0 0) 4 4 8)).getD 12 0) 0 4 8 := by
      rw [ht]
    have hlt := to_bits_lt (((octets.drop 14).drop
      (4 * to_bits ((octets.drop 14).getD 0 0) 4 4 8)).getD 12 0) 0 4 8
    rw [show (2 : Nat) ^ 4 = 16 from rfl] at hlt
    rw [hq]
    omega
  have hsrc : f.payload.source_address = IPv4Address.ofOctets (((octets.drop 14).drop 12).take 4) := by
    rw [hp]
  have hdst : f.payload.dest_address = IPv4Address.ofOctets (((octets.drop 14).drop 16).take 4) := by
    rw [hp]
  have hsrc4 : f.payload.source_address.address.length = 4 := by
    rw [hsrc]
    show (((octets.drop 14).drop 12).take 4).length = 4
    rw [List.length_take, List.length_drop, List.length_drop]
    omega
  have hdst4 : f.payload.dest_address.address.length = 4 := by
    rw [hdst]
    show (((octets.drop 14).drop 16).take 4).length = 4
    rw [List.length_take, List.length_drop, List.length_drop]
    omega
  have hbsrc : ∀ x ∈ f.payload.source_address.address, x < 256 := by
    rw [hsrc]
    intro x hx
    exact hb x (List.drop_subset _ _ (List.drop_subset _ _ (List.take_subset _ _ hx)))
  have hbdst : ∀ x ∈ f.payload.dest_address.address, x < 256 := by
    rw [hdst]
    intro x hx
    exact hb x (List.drop_subset _ _ (List.drop_subset _ _ (List.take_subset _ _ hx)))
  refine ⟨rfl, rfl, rfl, rfl, rfl, rfl, rfl, rfl, rfl, rfl, rfl, rfl, rfl, rfl, ?_, ?_⟩
  · rw [forge_reset_eq, ipv4_raw_header_payload_irrel]
    apply ipv4_replace_checksum_zero
    · rw [ipv4_header_back_payload_irrel]
      intro x hx
      unfold ipv4_header_back at hx
      simp only [List.mem_append] at hx
      rcases hx with h | h | h
      · exact hbsrc x h
      · exact hbdst x h
      · exact mem_to_octets_lt _ _ x h
    · rw [ipv4_header_back_payload_irrel]
      unfold ipv4_header_back
      simp only [List.length_append, length_to_octets]
      rw [hsrc4, hdst4]
      omega
  · rw [forge_reset_payload, forge_reset_eq]
    apply tcp_replace_checksum_zero
    · rw [show (({ f.payload with payload := forge_tcp f.payload.payload s } :
          IPv4Packet).replace_checksum).source_address = f.payload.source_address from rfl]
      exact hsrc4
    · rw [show (({ f.payload with payload := forge_tcp f.payload.payload s } :
          IPv4Packet).replace_checksum).dest_address = f.payload.dest_address from rfl]
      exact hdst4
    · rw [show (({ f.payload with payload := forge_tcp f.payload.payload s } :
          IPv4Packet).replace_checksum).source_address = f.payload.source_address from rfl]
      exact hbsrc
    · rw [show (({ f.payload with payload := forge_tcp f.payload.payload s } :
          IPv4Packet).replace_checksum).dest_address = f.payload.dest_address from rfl]
      exact hbdst
    · show f.payload.payload.data_offset ≤ 15
      exact hdoff15

def defaultTCP : TCPPacket :=
  { source_port := 0, dest_port := 0, sequence := 0, ack_number := 0,
    data_offset := 0, reserved := 0, NS := false, CWR := false, ECE := false,
    URG := false, ACK := false, PSH := false, RST := false, SYN := false,
    FIN := false, window_size := 0, checksum := 0, urgent_pointer := 0,
    options := 0, payload := [] }

def defaultIP : IPv4Packet :=
  { version := 0, ihl := 0, dscp := 0, ecn := 0, length := 0,
    identification := 0, flags := 0, fragment_offset := 0, ttl := 0,
    protocol := 0, checksum := 0, source_address := IPv4Address.ofOctets [],
    dest_address := IPv4Address.ofOctets [], options := 0, payload := defaultTCP }

def defaultFrame : EthernetFrame :=
  { dest_address := MACAddress.ofOctets [], source_address := MACAddress.ofOctets [],
    ethertype := 0, payload := defaultIP }

/-- Extracts the frame from a successful decode (defaulting on errors),
used to name concrete decoded frames in witnesses. -/
def getFrame : Except ParseError EthernetFrame → EthernetFrame
  | Except.ok f => f
  | Except.error _ => defaultFrame

/-- A well-formed 54-byte Ethernet/IPv4/TCP buffer (IHL 5, data offset 5,
no options, no TCP payload). -/
def buf54 : List Nat :=
  [1, 2, 3, 4, 5, 6, 7, 8, 9, 10, 11, 12, 8, 0,
   69, 0, 0, 40, 0, 1, 64, 0, 64, 6, 0, 0, 192, 168, 0, 1, 192, 168, 0, 2,
   0, 80, 1, 187, 0, 0, 0, 5, 0, 0, 0, 9, 80, 2, 1, 0, 0, 0, 0, 0]

def frame54 : EthernetFrame :=
  getFrame (decodeEthernet buf54)

/-- Witness for the amended C2 at the concrete buffer buf54. -/
theorem c2_amended_witness :
    decodeEthernet buf54 = Except.ok frame54 ∧ (∀ x ∈ buf54, x < 256) ∧
      5 ≤ frame54.payload.ihl ∧ 5 ≤ frame54.payload.payload.data_offset ∧
      14 + 4 * frame54.payload.ihl + 4 * frame54.payload.payload.data_offset ≤ buf54.length ∧
      ((frame54.payload.forge_reset 12345).payload.RST = true ∧
       (frame54.payload.forge_reset 12345).payload.NS = false ∧
       (frame54.payload.forge_reset 12345).payload.CWR = false ∧
       (frame54.payload.forge_reset 12345).payload.ECE = false ∧
       (frame54.payload.forge_reset 12345).payload.URG = false ∧
       (frame54.payload.forge_reset 12345).payload.ACK = false ∧
       (frame54.payload.forge_reset 12345).payload.PSH = false ∧
       (frame54.payload.forge_reset 12345).payload.SYN = false ∧
       (frame54.payload.forge_reset 12345).payload.FIN = false ∧
       (frame54.payload.forge_reset 12345).payload.sequence = 12345 ∧
       (frame54.payload.forge_reset 12345).payload.ack_number = 0 ∧
       (frame54.payload.forge_reset 12345).payload.window_size = 0 ∧
       (frame54.payload.forge_reset 12345).payload.urgent_pointer = 0 ∧
       (frame54.payload.forge_reset 12345).payload.payload = [] ∧
       checksum (frame54.payload.forge_reset 12345).raw_header = 0 ∧
       checksum ((frame54.payload.forge_reset 12345).tcp_checksum_bytes
         ++ (frame54.payload.forge_reset 12345).payload.raw_header) = 0) :=
  ⟨rfl, by decide, by decide, by decide, by decide,
    c2_amended buf54 frame54 12345 rfl (by decide) (by decide) (by decide) (by decide)⟩

/-- A 29-byte buffer that decodes successfully but degenerately: the IPv4
version nibble is 4 with IHL 0, so the TCP header is re-read from the start
of the truncated IP bytes and the decoded source address has only 3 octets,
making the pseudo-header 7 bytes long (odd). -/
def c2Buf : List Nat :=
  [1, 2, 3, 4, 5, 6, 7, 8, 9, 10, 11, 12, 8, 0,
   64, 0, 0, 50, 0, 0, 0, 0, 64, 6, 0, 0, 9, 9, 7]

def frameDeg : EthernetFrame :=
  getFrame (decodeEthernet c2Buf)

/-- Claim C2 (counterexample): a decoded (degenerate but accepted) frame for
which, after forge_reset, running the engine over the TCP checksum input
with the recomputed field in place yields 59415, not 0. -/
theorem c2_counterexample :
    decodeEthernet c2Buf = Except.ok frameDeg ∧
      checksum ((frameDeg.payload.forge_reset 12345).tcp_checksum_bytes
        ++ (frameDeg.payload.forge_reset 12345).payload.raw_header) ≠ 0 :=
  ⟨rfl, by decide⟩

/-- Witness for the amended C10 at the concrete packet ipW, whose
total-length field (43) matches its serialized length and whose TCP payload
is non-empty. -/
theorem c10_amended_witness :
    ipW.length = ipW.raw.length ∧ ipW.payload.payload ≠ [] ∧
      (ipW.forge_reset 12345).length = ipW.length ∧
      (ipW.forge_reset 12345).raw.length < (ipW.forge_reset 12345).length :=
  ⟨by decide, by decide, (c10_amended ipW 12345).2.2.2.2.1,
    (c10_amended ipW 12345).2.2.2.2.2.2.2.2.2.2.2.2.2 (by decide) (by decide)⟩

/-- A 55-byte buffer whose IPv4 total-length field is 0 (decode does not
validate it) and whose TCP payload is one byte. -/
def c10Buf : List Nat :=
  [1, 2, 3, 4, 5, 6, 7, 8, 9, 10, 11, 12, 8, 0,
   69, 0, 0, 0, 0, 1, 64, 0, 64, 6, 0, 0, 192, 168, 0, 1, 192, 168, 0, 2,
   0, 80, 1, 187, 0, 0, 0, 5, 0, 0, 0, 9, 80, 2, 1, 0, 0, 0, 0, 0, 42]

def frameC10 : EthernetFrame :=
  getFrame (decodeEthernet c10Buf)

/-- Claim C10 (counterexample): a decoded frame with a non-empty original
TCP payload whose retained total-length field (0, taken unvalidated from the
buffer) does not exceed the length of the serialized IPv4 packet after
forge_reset. -/
theorem c10_counterexample :
    decodeEthernet c10Buf = Except.ok frameC10 ∧
      frameC10.payload.payload.payload ≠ [] ∧
      ¬ ((frameC10.payload.forge_reset 9).raw.length
          < (frameC10.payload.forge_reset 9).length) :=
  ⟨rfl, by decide, by decide⟩

/-!
The round trip: a successfully decoded buffer whose declared header lengths
fit inside it reserializes to exactly the original bytes.
-/

/-!
Byte-level reconstruction lemmas for the round-trip theorem.
-/

theorem getD_lt_256 (l : List Nat) (hb : ∀ x ∈ l, x < 256) (i : Nat) : l.getD i 0 < 256 := by
  by_cases h : i < l.length
  · rw [List.getD_eq_getElem l 0 h]
    exact hb _ (List.getElem_mem h)
  · rw [List.getD_eq_default l 0 (by omega)]
    norm_num

theorem drop_take_one (l : List Nat) (i : Nat) (h : i < l.length) :
    (l.drop i).take 1 = [l.getD i 0] := by
  rw [List.drop_eq_getElem_cons h, List.take_succ_cons, List.take_zero,
    List.getD_eq_getElem l 0 h]

theorem to_octets_to_integer_slice (l : List Nat) (i k : Nat)
    (hb : ∀ x ∈ l, x < 256) (hlen : i + k ≤ l.length) :
    to_octets (to_integer ((l.drop i).take k) 8) k = (l.drop i).take k := by
  have hsub : ∀ x ∈ (l.drop i).take k, x < 256 := fun x hx =>
    hb x (List.drop_subset _ _ (List.take_subset _ _ hx))
  have hlen2 : ((l.drop i).take k).length = k := by
    rw [List.length_take, List.length_drop]
    omega
  have h := to_octets_to_integer ((l.drop i).take k) hsub
  rw [hlen2] at h
  exact h

theorem to_octets_to_integer_take (l : List Nat) (k : Nat)
    (hb : ∀ x ∈ l, x < 256) (hlen : k ≤ l.length) :
    to_octets (to_integer (l.take k) 8) k = l.take k := by
  have h := to_octets_to_integer_slice l 0 k hb (by omega)
  rw [List.drop_zero] at h
  exact h

theorem toNat_decide_ne_zero (x : Nat) (hx : x < 2) : (decide (x ≠ 0)).toNat = x := by
  interval_cases x <;> decide

theorem byte0_roundtrip (b : Nat) (hb : b < 256) :
    to_octets (to_integer [to_bits b 0 4 8, to_bits b 4 4 8] 4) 1 = [b] := by
  rw [to_octets_one]
  simp only [to_integer, List.length_cons, List.length_nil, Nat.shiftLeft_eq]
  rw [to_bits_eq, to_bits_eq]
  norm_num
  have h1 : b / 16 % 16 = b / 16 := Nat.mod_eq_of_lt (by omega)
  rw [h1]
  omega

theorem byte1_roundtrip (b : Nat) (hb : b < 256) :
    to_octets ((to_bits b 0 6 8 <<< 2) + to_bits b 6 2 8) 1 = [b] := by
  rw [to_octets_one, to_bits_eq, to_bits_eq, Nat.shiftLeft_eq]
  norm_num
  have h1 : b / 4 % 64 = b / 4 := Nat.mod_eq_of_lt (by omega)
  rw [h1]
  omega

theorem byte12_roundtrip (b : Nat) (hb : b < 256) :
    to_octets ((to_bits b 0 4 8 <<< 4) + (to_bits b 4 3 8 <<< 1)
      + (Bool.toNat (decide (to_bits b 7 1 8 ≠ 0)))) 1 = [b] := by
  have h3 : to_bits b 7 1 8 = b % 2 := by
    rw [to_bits_eq]
    norm_num
  rw [to_octets_one, h3, to_bits_eq, to_bits_eq,
    toNat_decide_ne_zero (b % 2) (by omega), Nat.shiftLeft_eq, Nat.shiftLeft_eq]
  norm_num
  have h1 : b / 16 % 16 = b / 16 := Nat.mod_eq_of_lt (by omega)
  rw [h1]
  have h2 : b / 2 % 8 = b % 16 / 2 := by
    rw [show (16 : Nat) = 2 * 8 from rfl, Nat.mod_mul_right_div_self]
  rw [h2]
  omega

theorem flagsfrag_roundtrip (x : Nat) (hx : x < 65536) :
    (to_bits x 0 3 16 <<< 13) + to_bits x 3 13 16 = x := by
  rw [to_bits_eq, to_bits_eq, Nat.shiftLeft_eq]
  norm_num
  have h1 : x / 8192 % 8 = x / 8192 := Nat.mod_eq_of_lt (by omega)
  rw [h1]
  omega

theorem ethertype_roundtrip (b12 b13 : Nat) (h12 : b12 < 256) (h13 : b13 < 256) :
    to_octets ((b12 <<< 8) + b13) 2 = [b12, b13] := by
  rw [to_octets_two, Nat.shiftLeft_eq]
  have e1 : (b12 * 256 + b13) / 256 = b12 := by omega
  have e2 : (b12 * 256 + b13) % 256 = b13 := by omega
  rw [e1, e2, Nat.mod_eq_of_lt h12]

theorem bit_toNat (b i : Nat) (h : i < 8) :
    (decide (to_bits b i 1 8 ≠ 0)).toNat = b / 2 ^ (7 - i) % 2 := by
  rw [to_bits_eq]
  have e : 8 - i - 1 = 7 - i := by omega
  rw [e, show (2 : Nat) ^ 1 = 2 from rfl]
  exact toNat_decide_ne_zero _ (Nat.mod_lt _ (by norm_num))

theorem byte13_roundtrip (b : Nat) (hb : b < 256) :
    to_octets (to_integer
      [(decide (to_bits b 0 1 8 ≠ 0)).toNat, (decide (to_bits b 1 1 8 ≠ 0)).toNat,
       (decide (to_bits b 2 1 8 ≠ 0)).toNat, (decide (to_bits b 3 1 8 ≠ 0)).toNat,
       (decide (to_bits b 4 1 8 ≠ 0)).toNat, (decide (to_bits b 5 1 8 ≠ 0)).toNat,
       (decide (to_bits b 6 1 8 ≠ 0)).toNat, (decide (to_bits b 7 1 8 ≠ 0)).toNat] 1) 1
      = [b] := by
  rw [bit_toNat b 0 (by norm_num), bit_toNat b 1 (by norm_num), bit_toNat b 2 (by norm_num),
    bit_toNat b 3 (by norm_num), bit_toNat b 4 (by norm_num), bit_toNat b 5 (by norm_num),
    bit_toNat b 6 (by norm_num), bit_toNat b 7 (by norm_num)]
  rw [to_octets_one]
  simp only [to_integer, List.length_cons, List.length_nil, Nat.shiftLeft_eq]
  norm_num
  omega

theorem cover (l : List Nat) (i k j : Nat) (hj : j = i + k) :
    (l.drop i).take k ++ l.drop j = l.drop i := by
  subst hj
  conv_rhs => rw [← List.take_append_drop k (l.drop i)]
  rw [List.drop_drop, Nat.add_comm]

theorem drop_take_two (l : List Nat) (i j : Nat) (hj : j = i + 1) (h : j < l.length) :
    (l.drop i).take 2 = [l.getD i 0, l.getD j 0] := by
  subst hj
  rw [List.drop_eq_getElem_cons (show i < l.length by omega)]
  have hi : i < l.length := by omega
  rw [show List.take 2 (l[i] :: l.drop (i + 1)) =
    l[i] :: List.take 1 (l.drop (i + 1)) from rfl]
  rw [drop_take_one l (i + 1) h, List.getD_eq_getElem l 0 hi]

theorem to_octets_getD_one (l : List Nat) (hb : ∀ x ∈ l, x < 256) (i : Nat)
    (h : i < l.length) : to_octets (l.getD i 0) 1 = (l.drop i).take 1 := by
  rw [to_octets_one, Nat.mod_eq_of_lt (getD_lt_256 l hb i), drop_take_one l i h]

theorem tcp_roundtrip (l : List Nat) (t : TCPPacket) (hdec : decodeTCP l = Except.ok t)
    (hb : ∀ x ∈ l, x < 256) (hdoff5 : 5 ≤ t.data_offset)
    (hlen : 4 * t.data_offset ≤ l.length) : t.raw = l := by
  obtain ⟨hl14, ht⟩ := decodeTCP_inv hdec
  subst ht
  have hd5 : 5 ≤ to_bits (l.getD 12 0) 0 4 8 := hdoff5
  have hl4 : 4 * to_bits (l.getD 12 0) 0 4 8 ≤ l.length := hlen
  simp only [TCPPacket.raw, TCPPacket.raw_header]
  rw [to_octets_to_integer_take l 2 hb (by omega)]
  rw [to_octets_to_integer_slice l 2 2 hb (by omega)]
  rw [to_octets_to_integer_slice l 4 4 hb (by omega)]
  rw [to_octets_to_integer_slice l 8 4 hb (by omega)]
  rw [byte12_roundtrip (l.getD 12 0) (getD_lt_256 l hb 12)]
  rw [byte13_roundtrip (l.getD 13 0) (getD_lt_256 l hb 13)]
  rw [to_octets_to_integer_slice l 14 2 hb (by omega)]
  rw [to_octets_to_integer_slice l 16 2 hb (by omega)]
  rw [to_octets_to_integer_slice l 18 2 hb (by omega)]
  rw [show (to_bits (l.getD 12 0) 0 4 8 - 5) * 4
    = 4 * to_bits (l.getD 12 0) 0 4 8 - 20 from by omega]
  rw [to_octets_to_integer_slice l 20 (4 * to_bits (l.getD 12 0) 0 4 8 - 20) hb (by omega)]
  rw [← drop_take_one l 12 (by omega), ← drop_take_one l 13 (by omega)]
  simp only [List.append_assoc]
  rw [cover l 20 (4 * to_bits (l.getD 12 0) 0 4 8 - 20)
    (4 * to_bits (l.getD 12 0) 0 4 8) (by omega)]
  rw [cover l 18 2 20 (by norm_num)]
  rw [cover l 16 2 18 (by norm_num)]
  rw [cover l 14 2 16 (by norm_num)]
  rw [cover l 13 1 14 (by norm_num)]
  rw [cover l 12 1 13 (by norm_num)]
  rw [cover l 8 4 12 (by norm_num)]
  rw [cover l 4 4 8 (by norm_num)]
  rw [cover l 2 2 4 (by norm_num)]
  exact List.take_append_drop 2 l

theorem ipv4_roundtrip (l : List Nat) (p : IPv4Packet) (hdec : decodeIPv4 l = Except.ok p)
    (hb : ∀ x ∈ l, x < 256) (hihl5 : 5 ≤ p.ihl) (hdoff5 : 5 ≤ p.payload.data_offset)
    (hlen : 4 * p.ihl + 4 * p.payload.data_offset ≤ l.length) : p.raw = l := by
  obtain ⟨h1, h2, h3, h4, hT, hp⟩ := decodeIPv4_inv hdec
  have hihl : p.ihl = to_bits (l.getD 0 0) 4 4 8 := by rw [hp]
  have hI5 : 5 ≤ to_bits (l.getD 0 0) 4 4 8 := by rw [← hihl]; exact hihl5
  have hlen' : 4 * to_bits (l.getD 0 0) 4 4 8 + 4 * p.payload.data_offset ≤ l.length := by
    rw [← hihl]; exact hlen
  have htcp : p.payload.raw = l.drop (4 * to_bits (l.getD 0 0) 4 4 8) := by
    apply tcp_roundtrip _ _ hT
    · exact fun x hx => hb x (List.drop_subset _ _ hx)
    · exact hdoff5
    · rw [List.length_drop]; omega
  have hF : to_integer ((l.drop 6).take 2) 8 < 65536 := by
    have h := to_integer_lt ((l.drop 6).take 2)
      (fun x hx => hb x (List.drop_subset _ _ (List.take_subset _ _ hx)))
    have hL : ((l.drop 6).take 2).length = 2 := by
      rw [List.length_take, List.length_drop]; omega
    rw [hL] at h
    norm_num at h
    exact h
  conv_lhs => rw [hp]
  simp only [IPv4Packet.raw, IPv4Packet.raw_header, IPv4Address.ofOctets]
  rw [htcp]
  rw [byte0_roundtrip (l.getD 0 0) (getD_lt_256 l hb 0)]
  rw [byte1_roundtrip (l.getD 1 0) (getD_lt_256 l hb 1)]
  rw [to_octets_to_integer_slice l 2 2 hb (by omega)]
  rw [to_octets_to_integer_slice l 4 2 hb (by omega)]
  rw [flagsfrag_roundtrip (to_integer ((l.drop 6).take 2) 8) hF]
  rw [to_octets_to_integer_slice l 6 2 hb (by omega)]
  rw [to_octets_getD_one l hb 8 (by omega)]
  rw [to_octets_getD_one l hb 9 (by omega)]
  rw [to_octets_to_integer_slice l 10 2 hb (by omega)]
  rw [show (to_bits (l.getD 0 0) 4 4 8 - 5) * 4
    = 4 * to_bits (l.getD 0 0) 4 4 8 - 20 from by omega]
  rw [to_octets_to_integer_slice l 20 (4 * to_bits (l.getD 0 0) 4 4 8 - 20) hb (by omega)]
  rw [← drop_take_one l 0 (by omega), ← drop_take_one l 1 (by omega)]
  simp only [List.append_assoc]
  rw [cover l 20 (4 * to_bits (l.getD 0 0) 4 4 8 - 20)
    (4 * to_bits (l.getD 0 0) 4 4 8) (by omega)]
  rw [cover l 16 4 20 (by norm_num)]
  rw [cover l 12 4 16 (by norm_num)]
  rw [cover l 10 2 12 (by norm_num)]
  rw [cover l 9 1 10 (by norm_num)]
  rw [cover l 8 1 9 (by norm_num)]
  rw [cover l 6 2 8 (by norm_num)]
  rw [cover l 4 2 6 (by norm_num)]
  rw [cover l 2 2 4 (by norm_num)]
  rw [cover l 1 1 2 (by norm_num)]
  rw [cover l 0 1 1 (by norm_num)]
  rw [List.drop_zero]

/-- Claim C1: for every input byte buffer that passes the three protocol
checks (ethertype 0x0800, IP version 4, IP protocol 6 - all implied by a
successful decode) and is long enough for the lengths its own header fields
declare (IHL and data offset at least 5, and the buffer at least
`14 + 4*IHL + 4*data_offset` bytes), constructing `EthernetFrame` on the
buffer and calling `raw()` returns a byte buffer equal to the original
input. Decoding itself is the pure function `decodeEthernet`, which by
construction mutates nothing. -/
theorem c1_round_trip (octets : List Nat) (f : EthernetFrame)
    (hdec : decodeEthernet octets = Except.ok f)
    (hb : ∀ x ∈ octets, x < 256)
    (hihl5 : 5 ≤ f.payload.ihl) (hdoff5 : 5 ≤ f.payload.payload.data_offset)
    (hlen : 14 + 4 * f.payload.ihl + 4 * f.payload.payload.data_offset ≤ octets.length) :
    f.raw = octets := by
  obtain ⟨h14, heth, hP, hf⟩ := decodeEthernet_inv hdec
  have hip : f.payload.raw = octets.drop 14 := by
    apply ipv4_roundtrip _ _ hP
    · exact fun x hx => hb x (List.drop_subset _ _ hx)
    · exact hihl5
    · exact hdoff5
    · rw [List.length_drop]; omega
  conv_lhs => rw [hf]
  simp only [EthernetFrame.raw, MACAddress.ofOctets]
  rw [hip]
  rw [ethertype_roundtrip (octets.getD 12 0) (octets.getD 13 0)
    (getD_lt_256 octets hb 12) (getD_lt_256 octets hb 13)]
  rw [← drop_take_two octets 12 13 (by norm_num) (by omega)]
  rw [show octets.take 6 = (octets.drop 0).take 6 from rfl]
  simp only [List.append_assoc]
  rw [cover octets 12 2 14 (by norm_num)]
  rw [cover octets 6 6 12 (by norm_num)]
  rw [cover octets 0 6 6 (by norm_num)]
  rw [List.drop_zero]

theorem c1_round_trip_witness :
    decodeEthernet buf54 = Except.ok frame54 ∧ (∀ x ∈ buf54, x < 256) ∧
      5 ≤ frame54.payload.ihl ∧ 5 ≤ frame54.payload.payload.data_offset ∧
      14 + 4 * frame54.payload.ihl + 4 * frame54.payload.payload.data_offset ≤ buf54.length ∧
      frame54.raw = buf54 :=
  ⟨rfl, by decide, by decide, by decide, by decide,
    c1_round_trip buf54 frame54 rfl (by decide) (by decide) (by decide) (by decide)⟩
